import Mathlib

/-!
# The case-management record store of `src/database.js`

A shallow embedding of the `Database` class: the persisted document, the
load / mutate / save cycle of every operation, the cascade on case deletion,
the re-sort of the timeline and the search over all collections.

Modelling conventions.

* A JavaScript value held in the document is a JSON value (`JVal`); the value
  `undefined` of a property read is `none`.
* A record is an object: its own properties in insertion order (`Record`).
* The backing file is known by what `JSON.parse` makes of it (`Backing`): no
  file, content that cannot be read or parsed, or a document.  A document is an
  object whose collections, when the key is present, are arrays of records.
* What the host supplies (clock, `toISOString`, `generateId`, `Date` parsing,
  `toLowerCase`, the success of `writeFileSync`) is a parameter (`Host`).
  The clock is read as the same instant throughout one operation.
* An operation returns its result, or the error it throws, together with the
  backing it leaves behind.
-/

namespace CaseStore

/-! ## Values and records -/

/-- JSON values.  Numbers are carried as integers: no operation of the store
does arithmetic on a stored number. -/
inductive JVal where
  | null
  | bool (b : Bool)
  | num (n : Int)
  | str (s : String)
  | arr (xs : List JVal)
  | obj (kvs : List (String × JVal))

mutual
/-- Structural equality test on JSON values. -/
def JVal.beq : JVal → JVal → Bool
  | .null, .null => true
  | .bool a, .bool b => a == b
  | .num a, .num b => a == b
  | .str a, .str b => a == b
  | .arr a, .arr b => JVal.beqList a b
  | .obj a, .obj b => JVal.beqFields a b
  | _, _ => false
/-- Structural equality test on arrays of JSON values. -/
def JVal.beqList : List JVal → List JVal → Bool
  | [], [] => true
  | x :: xs, y :: ys => JVal.beq x y && JVal.beqList xs ys
  | _, _ => false
/-- Structural equality test on property lists. -/
def JVal.beqFields : List (String × JVal) → List (String × JVal) → Bool
  | [], [] => true
  | (k, x) :: xs, (l, y) :: ys => k == l && JVal.beq x y && JVal.beqFields xs ys
  | _, _ => false
end

mutual
theorem JVal.beq_iff : ∀ (a b : JVal), JVal.beq a b = true ↔ a = b
  | .null, b => by cases b <;> simp [JVal.beq]
  | .bool a, b => by cases b <;> simp [JVal.beq]
  | .num a, b => by cases b <;> simp [JVal.beq]
  | .str a, b => by cases b <;> simp [JVal.beq]
  | .arr a, b => by cases b <;> simp [JVal.beq, JVal.beqList_iff a]
  | .obj a, b => by cases b <;> simp [JVal.beq, JVal.beqFields_iff a]
theorem JVal.beqList_iff : ∀ (a b : List JVal), JVal.beqList a b = true ↔ a = b
  | [], b => by cases b <;> simp [JVal.beqList]
  | x :: xs, b => by
    cases b <;> simp [JVal.beqList, JVal.beq_iff x, JVal.beqList_iff xs]
theorem JVal.beqFields_iff :
    ∀ (a b : List (String × JVal)), JVal.beqFields a b = true ↔ a = b
  | [], b => by cases b <;> simp [JVal.beqFields]
  | (k, x) :: xs, b => by
    cases b with
    | nil => simp [JVal.beqFields]
    | cons p ys =>
      obtain ⟨l, y⟩ := p
      simp [JVal.beqFields, JVal.beq_iff x, JVal.beqFields_iff xs, and_assoc]
end

instance : DecidableEq JVal := fun a b =>
  decidable_of_iff (JVal.beq a b = true) (JVal.beq_iff a b)

/-- An object: its own properties, in insertion order.  A key is listed once;
should a list repeat a key, the first entry is the property.  (JavaScript
enumerates integer-like keys ahead of the others; the order of keys plays no
part in a property read.) -/
abbrev Record := List (String × JVal)

/-- Property read `obj[key]`; `none` is `undefined`. -/
def Record.getProp (r : Record) (key : String) : Option JVal :=
  List.lookup key r

/-- Property write `obj[key] = v`: an existing key keeps its place, a new key
is appended. -/
def Record.setProp : Record → String → JVal → Record
  | [], key, v => [(key, v)]
  | (k, w) :: rest, key, v =>
    if k = key then (k, v) :: rest else (k, w) :: Record.setProp rest key v

/-- The copy loop of an object spread: for each listed key of `source`, read
the property from `source` and write it to the target. -/
def Record.copyProps (source : Record) : List (String × JVal) → Record → Record
  | [], target => target
  | (k, _) :: more, target =>
    Record.copyProps source more
      (match source.getProp k with
       | some v => target.setProp k v
       | none => target)

/-- Object spread `{ ...target, ...source }` onto the properties collected so
far. -/
def Record.spread (target source : Record) : Record :=
  Record.copyProps source source target

/-- Strict equality `x === y` between a property read from a stored record and
a value of the caller.  Primitives compare by value; an array or object read
from the backing is a fresh reference and is identical to no other value. -/
def strictEq : Option JVal → JVal → Bool
  | some .null, .null => true
  | some (.bool a), .bool b => a == b
  | some (.num a), .num b => a == b
  | some (.str a), .str b => a == b
  | _, _ => false

/-- Method `Array.prototype.findIndex`: the first index whose element satisfies the
predicate; `none` is `-1`. -/
def findIndex (p : Record → Bool) : List Record → Option Nat
  | [] => none
  | x :: xs => if p x then some 0 else (findIndex p xs).map (· + 1)

/-! ## The document, the backing and the host -/

/-- The nine collections of the document. -/
inductive Coll where
  | cases | evidence | suspects | witnesses | timeline | documents
  | vehicles | officers | incidents
  deriving DecidableEq

/-- The persisted document as `JSON.parse` returns it.  A collection key that
is absent from the object is `none`. -/
structure Document where
  cases : Option (List Record)
  evidence : Option (List Record)
  suspects : Option (List Record)
  witnesses : Option (List Record)
  timeline : Option (List Record)
  documents : Option (List Record)
  vehicles : Option (List Record)
  officers : Option (List Record)
  incidents : Option (List Record)
  lastUpdated : Option JVal
  deriving DecidableEq

/-- Read of `data.<collection>`. -/
def Document.coll (d : Document) : Coll → Option (List Record)
  | .cases => d.cases
  | .evidence => d.evidence
  | .suspects => d.suspects
  | .witnesses => d.witnesses
  | .timeline => d.timeline
  | .documents => d.documents
  | .vehicles => d.vehicles
  | .officers => d.officers
  | .incidents => d.incidents

/-- Assignment `data.<collection> = xs`. -/
def Document.setColl (d : Document) (c : Coll) (xs : List Record) : Document :=
  match c with
  | .cases => { d with cases := some xs }
  | .evidence => { d with evidence := some xs }
  | .suspects => { d with suspects := some xs }
  | .witnesses => { d with witnesses := some xs }
  | .timeline => { d with timeline := some xs }
  | .documents => { d with documents := some xs }
  | .vehicles => { d with vehicles := some xs }
  | .officers => { d with officers := some xs }
  | .incidents => { d with incidents := some xs }

/-- The records of a collection, none when the key is absent
(`data.<collection> || []`). -/
def Document.records (d : Document) (c : Coll) : List Record :=
  (d.coll c).getD []

/-- Errors an operation can throw. -/
inductive JsError where
  | typeError
  | readFailed
  | writeFailed
  deriving DecidableEq

/-- What the host supplies to one operation. -/
structure Host where
  /-- The clock, in milliseconds since the epoch. -/
  clock : Int
  /-- The rendering `Date.prototype.toISOString`. -/
  toISOString : Int → String
  /-- The token the call `generateId()` produces. -/
  generateId : String
  /-- The time value of `new Date(v)`; `none` is `NaN` (an invalid date). -/
  parseDate : Option JVal → Option Int
  /-- The rendering `String.prototype.toLowerCase`. -/
  toLowerCase : String → String
  /-- Whether `fs.writeFileSync` succeeds. -/
  writeOk : Bool

/-- The string `new Date().toISOString()`. -/
def Host.isoNow (h : Host) : String :=
  h.toISOString h.clock

/-- The backing file, by what reading and parsing it gives. -/
inductive Backing where
  | missing
  | corrupt
  | stored (d : Document)
  deriving DecidableEq

/-- The result of an operation, or the error thrown, and the backing left. -/
abbrev Outcome (α : Type) := Except JsError α × Backing

/-! ## Storage backing -/

/-- Method `saveData(data)`: stamp `lastUpdated`, write the whole document. -/
def saveData (h : Host) (data : Document) (b : Backing) : Outcome Bool :=
  if h.writeOk then
    (.ok true, .stored { data with lastUpdated := some (.str h.isoNow) })
  else
    (.error .writeFailed, b)

/-- The document `initializeDatabase` writes when there is no file. -/
def initialData (h : Host) : Document :=
  { cases := some [], evidence := some [], suspects := some [],
    witnesses := some [], timeline := some [], documents := some [],
    vehicles := some [], officers := some [], incidents := some [],
    lastUpdated := some (.str h.isoNow) }

/-- The structure `getData` writes and returns when reading fails. -/
def emptyStructure (h : Host) : Document :=
  { cases := some [], evidence := some [], suspects := some [],
    witnesses := some [], timeline := some [], documents := some [],
    vehicles := none, officers := none, incidents := none,
    lastUpdated := some (.str h.isoNow) }

/-- Method `initializeDatabase()`: write the initial document unless a file exists. -/
def initializeDatabase (h : Host) (b : Backing) : Outcome Bool :=
  match b with
  | .missing => saveData h (initialData h) b
  | _ => (.ok true, b)

/-- The read `JSON.parse(fs.readFileSync(...))`. -/
def readParse : Backing → Except JsError Document
  | .stored d => .ok d
  | _ => .error .readFailed

/-- Method `getData()`: read and parse the file, initialising it first when it does
not exist; on any failure write the empty structure and return it. -/
def getData (h : Host) (b : Backing) : Outcome Document :=
  let attempt : Outcome Document :=
    match initializeDatabase h b with
    | (.error e, b1) => (.error e, b1)
    | (.ok _, b1) => (readParse b1, b1)
  match attempt with
  | (.ok data, b1) => (.ok data, b1)
  | (.error _, b1) =>
    match saveData h (emptyStructure h) b1 with
    | (.error e, b2) => (.error e, b2)
    | (.ok _, b2) => (.ok (emptyStructure h), b2)

/-! ## Record store -/

/-- The load / mutate / save cycle shared by the operations: `getData()`, the
mutation of the loaded document (which may throw, or decide not to save), then
`saveData(data)` and the value returned. -/
def cycle {α : Type} (h : Host) (b : Backing)
    (mutate : Document → Except JsError (α × Option Document)) : Outcome α :=
  match getData h b with
  | (.error e, b1) => (.error e, b1)
  | (.ok data, b1) =>
    match mutate data with
    | .error e => (.error e, b1)
    | .ok (a, none) => (.ok a, b1)
    | .ok (a, some data1) =>
      match saveData h data1 b1 with
      | (.error e, b2) => (.error e, b2)
      | (.ok _, b2) => (.ok a, b2)

/-- The statement `data.<c> = data.<c>.filter(keep)`; calling `filter` on an
absent collection throws a `TypeError`. -/
def filterColl (c : Coll) (keep : Record → Bool) (data : Document) :
    Except JsError Document :=
  match data.coll c with
  | none => .error .typeError
  | some xs => .ok (data.setColl c (xs.filter keep))

/-- Method `deleteCase(id)`: drop the case, then the evidence, timeline and document
records whose `caseId` is `id`; one save. -/
def deleteCase (h : Host) (id : JVal) (b : Backing) : Outcome Bool :=
  cycle h b fun data => do
    let data ← filterColl .cases (fun c => !strictEq (c.getProp "id") id) data
    let data ← filterColl .evidence (fun e => !strictEq (e.getProp "caseId") id) data
    let data ← filterColl .timeline (fun t => !strictEq (t.getProp "caseId") id) data
    let data ← filterColl .documents (fun d => !strictEq (d.getProp "caseId") id) data
    pure (true, some data)

/-- The object literal of the add operations:
`{ id: this.generateId(), ...fields, createdAt: now, updatedAt: now }`. -/
def newRecord (h : Host) (fields : Record) : Record :=
  let o : Record := Record.setProp [] "id" (.str h.generateId)
  let o : Record := Record.spread o fields
  let o : Record := Record.setProp o "createdAt" (.str h.isoNow)
  Record.setProp o "updatedAt" (.str h.isoNow)

/-- The object literal of the update operations:
`{ ...existing, ...updates, updatedAt: now }`; spreading `undefined` copies
nothing. -/
def mergedRecord (h : Host) (existing : Option Record) (updates : Record) : Record :=
  let o : Record := Record.spread [] (existing.getD [])
  let o : Record := Record.spread o updates
  Record.setProp o "updatedAt" (.str h.isoNow)

/-- The getters `getCases`, `getEvidence`, ...: `getData()`, then
`data.<c> || []`. -/
def getColl (c : Coll) (h : Host) (b : Backing) : Outcome (List Record) :=
  match getData h b with
  | (.error e, b1) => (.error e, b1)
  | (.ok data, b1) => (.ok (data.records c), b1)

/-- The add operations other than `addTimelineEvent`: build the record, `push`
it on `data.<c>` (a `TypeError` when the key is absent), save, return it. -/
def addRecord (c : Coll) (h : Host) (fields : Record) (b : Backing) : Outcome Record :=
  cycle h b fun data =>
    let newRec := newRecord h fields
    match data.coll c with
    | none => .error .typeError
    | some xs => .ok (newRec, some (data.setColl c (xs ++ [newRec])))

/-- The update operations other than `updateTimelineEvent`: `findIndex` by
`id`; when found, replace the record by the merge, save and return
`data.<c>[index]`; otherwise return `null` (`none`) without saving. -/
def updateRecord (c : Coll) (h : Host) (id : JVal) (updates : Record) (b : Backing) :
    Outcome (Option Record) :=
  cycle h b fun data =>
    match data.coll c with
    | none => .error .typeError
    | some xs =>
      match findIndex (fun r => strictEq (r.getProp "id") id) xs with
      | none => .ok (none, none)
      | some index =>
        let xs1 := xs.set index (mergedRecord h (xs.get? index) updates)
        .ok (xs1.get? index, some (data.setColl c xs1))

/-- The delete operations other than `deleteCase`: filter `data.<c>` by `id`,
save, return `true`. -/
def deleteRecord (c : Coll) (h : Host) (id : JVal) (b : Backing) : Outcome Bool :=
  cycle h b fun data => do
    let data ← filterColl c (fun r => !strictEq (r.getProp "id") id) data
    pure (true, some data)

/-- The lookups `getCase`, `getSuspect`, `getVehicle`: `find` by `id` in the
list of the getter; `none` is `undefined`. -/
def findRecord (c : Coll) (h : Host) (id : JVal) (b : Backing) : Outcome (Option Record) :=
  match getColl c h b with
  | (.error e, b1) => (.error e, b1)
  | (.ok xs, b1) => (.ok (xs.find? fun r => strictEq (r.getProp "id") id), b1)

/-- The lookups `getEvidenceByCase`, `getTimelineByCase`, `getDocumentsByCase`:
the records of the getter whose `caseId` is `caseId`. -/
def byCase (c : Coll) (h : Host) (caseId : JVal) (b : Backing) : Outcome (List Record) :=
  match getColl c h b with
  | (.error e, b1) => (.error e, b1)
  | (.ok xs, b1) => (.ok (xs.filter fun r => strictEq (r.getProp "caseId") caseId), b1)

/-! ### Cases -/

def getCases := getColl .cases
def getCase := findRecord .cases
def addCase := addRecord .cases
def updateCase := updateRecord .cases

/-! ### Evidence -/

def getEvidence := getColl .evidence
def getEvidenceByCase := byCase .evidence
def addEvidence := addRecord .evidence
def updateEvidence := updateRecord .evidence
def deleteEvidence := deleteRecord .evidence

/-! ### Suspects -/

def getSuspects := getColl .suspects
def getSuspect := findRecord .suspects
def addSuspect := addRecord .suspects
def updateSuspect := updateRecord .suspects
def deleteSuspect := deleteRecord .suspects

/-! ### Witnesses -/

def getWitnesses := getColl .witnesses
def addWitness := addRecord .witnesses
def updateWitness := updateRecord .witnesses
def deleteWitness := deleteRecord .witnesses

/-! ### Timeline -/

/-- The time value of `new Date(r.dateTime)`; `none` is an invalid date. -/
def dateOf (h : Host) (r : Record) : Option Int :=
  h.parseDate (r.getProp "dateTime")

/-- The comparator `(a, b) => new Date(a.dateTime) - new Date(b.dateTime)`;
`none` is `NaN`, the difference when either date is invalid.  (For two valid
dates the floating-point difference has the sign of the exact one.) -/
def compareDateTime (h : Host) (a b : Record) : Option Int :=
  match dateOf h a, dateOf h b with
  | some x, some y => some (x - y)
  | _, _ => none

/-- The abstract operation `SortCompare` of `Array.prototype.sort`: a
comparator result of `NaN` counts as `+0`. -/
def sortCompare (h : Host) (a b : Record) : Int :=
  (compareDateTime h a b).getD 0

/-- The call `data.timeline.sort(comparator)`: a stable sort, here by
insertion.  Every stable sort gives this result when all dates are valid; with
an invalid date the comparator is inconsistent and the language leaves the
order to the engine. -/
def sortTimeline (h : Host) (xs : List Record) : List Record :=
  xs.insertionSort fun a b => sortCompare h a b ≤ 0

/-- Both dates are valid and the first is not later than the second. -/
def dateLe (h : Host) (a b : Record) : Bool :=
  match dateOf h a, dateOf h b with
  | some x, some y => decide (x ≤ y)
  | _, _ => false

/-- The list is in non-decreasing order of parsed `dateTime`. -/
def DateSorted (h : Host) (xs : List Record) : Prop :=
  xs.Pairwise fun a b => dateLe h a b = true

instance (h : Host) (xs : List Record) : Decidable (DateSorted h xs) := by
  unfold DateSorted
  infer_instance

def getTimeline := getColl .timeline
def getTimelineByCase := byCase .timeline

/-- The object literal of `addTimelineEvent`:
`{ id: this.generateId(), ...timelineData, createdAt: now }`. -/
def newEvent (h : Host) (timelineData : Record) : Record :=
  let o : Record := Record.setProp [] "id" (.str h.generateId)
  let o : Record := Record.spread o timelineData
  Record.setProp o "createdAt" (.str h.isoNow)

/-- Method `addTimelineEvent(timelineData)`: push, sort by date, save, return
the new event. -/
def addTimelineEvent (h : Host) (timelineData : Record) (b : Backing) : Outcome Record :=
  cycle h b fun data =>
    let newEv := newEvent h timelineData
    match data.timeline with
    | none => .error .typeError
    | some ts =>
      .ok (newEv, some (data.setColl .timeline (sortTimeline h (ts ++ [newEv]))))

/-- Method `updateTimelineEvent(id, updates)`: `findIndex` by `id`; when found,
replace the record by the merge, sort by date, save and return
`data.timeline[index]`; otherwise return `null` (`none`) without saving. -/
def updateTimelineEvent (h : Host) (id : JVal) (updates : Record) (b : Backing) :
    Outcome (Option Record) :=
  cycle h b fun data =>
    match data.timeline with
    | none => .error .typeError
    | some ts =>
      match findIndex (fun t => strictEq (t.getProp "id") id) ts with
      | none => .ok (none, none)
      | some index =>
        let ts1 := sortTimeline h (ts.set index (mergedRecord h (ts.get? index) updates))
        .ok (ts1.get? index, some (data.setColl .timeline ts1))

def deleteTimelineEvent := deleteRecord .timeline

/-! ### Documents -/

def getDocuments := getColl .documents
def getDocumentsByCase := byCase .documents
def addDocument := addRecord .documents
def updateDocument := updateRecord .documents
def deleteDocument := deleteRecord .documents

/-! ### Vehicles, incidents, officers -/

def getVehicles := getColl .vehicles
def getVehicle := findRecord .vehicles
def addVehicle := addRecord .vehicles
def updateVehicle := updateRecord .vehicles
def deleteVehicle := deleteRecord .vehicles

def getIncidents := getColl .incidents
def addIncident := addRecord .incidents
def updateIncident := updateRecord .incidents
def deleteIncident := deleteRecord .incidents

def getOfficers := getColl .officers
def addOfficer := addRecord .officers

/-- The nine add operations, each with the collection it appends to. -/
def addOperations : List (Coll × (Host → Record → Backing → Outcome Record)) :=
  [(.cases, addCase), (.evidence, addEvidence), (.suspects, addSuspect),
   (.witnesses, addWitness), (.timeline, addTimelineEvent), (.documents, addDocument),
   (.vehicles, addVehicle), (.incidents, addIncident), (.officers, addOfficer)]

/-! ## Search -/

/-- The test `haystack.includes(needle)`. -/
def includes (haystack needle : String) : Bool :=
  decide (needle.data <:+: haystack.data)

/-- Method `matchesSearch(obj, query, fields)`: some listed field holds a
non-empty string whose lower-cased form includes the query. -/
def matchesSearch (h : Host) (obj : Record) (query : String) (fields : List String) : Bool :=
  fields.any fun field =>
    match obj.getProp field with
    | some (.str value) => value != "" && includes (h.toLowerCase value) query
    | _ => false

/-- The object `results` of `search`: the array under each key, `none` for a
key the object does not have. -/
structure SearchResults where
  cases : Option (List Record)
  evidence : Option (List Record)
  suspects : Option (List Record)
  witnesses : Option (List Record)
  timeline : Option (List Record)
  documents : Option (List Record)
  vehicles : Option (List Record)
  deriving DecidableEq

/-- The loop `xs.forEach(x => { if (keep(x)) results.<key>.push(x); })` on
the array under one key of `results`; `push` on an absent key throws a
`TypeError`. -/
def pushMatching (keep : Record → Bool) :
    List Record → Option (List Record) → Except JsError (Option (List Record))
  | [], target => .ok target
  | x :: xs, target =>
    if keep x then
      match target with
      | none => .error .typeError
      | some out => pushMatching keep xs (some (out ++ [x]))
    else pushMatching keep xs target

/-- One block of `search`: call the getter of the collection and push the
matching records on the array under its key of `results`. -/
def searchBlock (h : Host) (c : Coll) (fields : List String) (lowerQuery : String)
    (target : Option (List Record)) (b : Backing) : Outcome (Option (List Record)) :=
  match getColl c h b with
  | (.error e, b1) => (.error e, b1)
  | (.ok xs, b1) =>
    (pushMatching (fun r => matchesSearch h r lowerQuery fields) xs target, b1)

/-- Method `search(query)`: `results` starts with an empty array under
`cases`, `evidence`, `suspects`, `witnesses`, `timeline` and `documents` (and
no `vehicles` key); then the seven blocks run in turn. -/
def search (h : Host) (query : String) (b : Backing) : Outcome SearchResults :=
  let lowerQuery := h.toLowerCase query
  match searchBlock h .cases
      ["caseNumber", "title", "description", "location", "status", "officer"]
      lowerQuery (some []) b with
  | (.error e, b1) => (.error e, b1)
  | (.ok cases, b1) =>
  match searchBlock h .evidence
      ["itemNumber", "description", "type", "location", "officer", "notes"]
      lowerQuery (some []) b1 with
  | (.error e, b2) => (.error e, b2)
  | (.ok evidence, b2) =>
  match searchBlock h .suspects
      ["name", "aliases", "address", "phone", "email", "description", "notes"]
      lowerQuery (some []) b2 with
  | (.error e, b3) => (.error e, b3)
  | (.ok suspects, b3) =>
  match searchBlock h .witnesses
      ["name", "address", "phone", "email", "statement", "notes"]
      lowerQuery (some []) b3 with
  | (.error e, b4) => (.error e, b4)
  | (.ok witnesses, b4) =>
  match searchBlock h .timeline
      ["description", "location", "officer", "notes"]
      lowerQuery (some []) b4 with
  | (.error e, b5) => (.error e, b5)
  | (.ok timeline, b5) =>
  match searchBlock h .documents
      ["title", "content", "type", "author", "notes"]
      lowerQuery (some []) b5 with
  | (.error e, b6) => (.error e, b6)
  | (.ok documents, b6) =>
  match searchBlock h .vehicles
      ["plate", "vin", "make", "model", "color", "owner", "status", "notes"]
      lowerQuery none b6 with
  | (.error e, b7) => (.error e, b7)
  | (.ok vehicles, b7) =>
    (.ok { cases := cases, evidence := evidence, suspects := suspects,
           witnesses := witnesses, timeline := timeline, documents := documents,
           vehicles := vehicles }, b7)

/-- The field list each block of `search` declares for its collection (none
for the officers and incidents, which `search` does not scan). -/
def searchFields : Coll → List String
  | .cases => ["caseNumber", "title", "description", "location", "status", "officer"]
  | .evidence => ["itemNumber", "description", "type", "location", "officer", "notes"]
  | .suspects => ["name", "aliases", "address", "phone", "email", "description", "notes"]
  | .witnesses => ["name", "address", "phone", "email", "statement", "notes"]
  | .timeline => ["description", "location", "officer", "notes"]
  | .documents => ["title", "content", "type", "author", "notes"]
  | .vehicles => ["plate", "vin", "make", "model", "color", "owner", "status", "notes"]
  | .officers => []
  | .incidents => []

/-- The match as the specification words it: some declared field of the record
holds a string whose lower-cased form contains the lower-cased query. -/
def specMatches (h : Host) (r : Record) (q : String) (fields : List String) : Bool :=
  fields.any fun field =>
    match r.getProp field with
    | some (.str value) => includes (h.toLowerCase value) (h.toLowerCase q)
    | _ => false

/-! ## Operation tables and the identifier invariant -/

/-- The nine getters, each with the collection it lists. -/
def getOperations : List (Coll × (Host → Backing → Outcome (List Record))) :=
  [(.cases, getCases), (.evidence, getEvidence), (.suspects, getSuspects),
   (.witnesses, getWitnesses), (.timeline, getTimeline), (.documents, getDocuments),
   (.vehicles, getVehicles), (.incidents, getIncidents), (.officers, getOfficers)]

/-- The add operations other than `addTimelineEvent`, each with its collection. -/
def plainAddOperations : List (Coll × (Host → Record → Backing → Outcome Record)) :=
  [(.cases, addCase), (.evidence, addEvidence), (.suspects, addSuspect),
   (.witnesses, addWitness), (.documents, addDocument),
   (.vehicles, addVehicle), (.incidents, addIncident), (.officers, addOfficer)]

/-- The eight update operations, each with its collection. -/
def updateOperations :
    List (Coll × (Host → JVal → Record → Backing → Outcome (Option Record))) :=
  [(.cases, updateCase), (.evidence, updateEvidence), (.suspects, updateSuspect),
   (.witnesses, updateWitness), (.timeline, updateTimelineEvent),
   (.documents, updateDocument), (.vehicles, updateVehicle), (.incidents, updateIncident)]

/-- The delete operations other than `deleteCase`, each with its collection. -/
def deleteRecordOperations : List (Coll × (Host → JVal → Backing → Outcome Bool)) :=
  [(.evidence, deleteEvidence), (.suspects, deleteSuspect), (.witnesses, deleteWitness),
   (.timeline, deleteTimelineEvent), (.documents, deleteDocument),
   (.vehicles, deleteVehicle), (.incidents, deleteIncident)]

/-- The eight delete operations. -/
def deleteOperations : List (Host → JVal → Backing → Outcome Bool) :=
  deleteCase :: deleteRecordOperations.map Prod.snd

/-- The `id` properties of the records of a list are pairwise different. -/
def IdsDistinct (xs : List Record) : Prop :=
  (xs.map fun r => r.getProp "id").Nodup

instance (xs : List Record) : Decidable (IdsDistinct xs) := by
  unfold IdsDistinct
  infer_instance

/-- The id the record built by an add operation receives: the `id` of the
bag when the bag has that key, the token of `generateId` otherwise. -/
def receivedId (h : Host) (fields : Record) : JVal :=
  (fields.getProp "id").getD (.str h.generateId)

/-- The bag of an update names no id that another record holds: the bag has no
`id` key, or no record has the id looked for, or the id the bag names is the
`id` of no record other than the one the update finds. -/
def namesNoOtherId (id : JVal) (updates : Record) (xs : List Record) : Bool :=
  match updates.getProp "id", findIndex (fun r => strictEq (r.getProp "id") id) xs with
  | some v, some n => (xs.eraseIdx n).all fun x => x.getProp "id" != some v
  | _, _ => true

/-- Within each collection of the document the ids are pairwise different. -/
def Document.idsDistinct (d : Document) : Prop :=
  ∀ c : Coll, IdsDistinct (d.records c)

/-- The property read gives a string (`typeof value === 'string'`); an absent
property, `null`, a number, a boolean, an array or an object does not. -/
def isStringValue : Option JVal → Bool
  | some (.str _) => true
  | _ => false

/-- The three lookups by id, each with the collection it scans. -/
def findOperations : List (Coll × (Host → JVal → Backing → Outcome (Option Record))) :=
  [(.cases, getCase), (.suspects, getSuspect), (.vehicles, getVehicle)]

/-! ## Serialisation -/

/-- A value as `JSON.parse` returns it.  Beside the JSON values it can be an
infinite number: a number literal beyond the range of a double, such as
`1e400`, is read as `Infinity`.  (A finite number is carried by an integer, as
in `JVal`; like `===`, the integer does not tell `-0` from `0`.) -/
inductive Parsed where
  | null
  | bool (b : Bool)
  | num (n : Int)
  | infinity (negative : Bool)
  | str (s : String)
  | arr (xs : List Parsed)
  | obj (kvs : List (String × Parsed))

mutual
/-- The value `JSON.parse` reads back from the text `JSON.stringify` writes for
a value: an infinite number is written as `null`; every other value is written
so that it is read back as itself. -/
def Parsed.reread : Parsed → Parsed
  | .null => .null
  | .bool b => .bool b
  | .num n => .num n
  | .infinity _ => .null
  | .str s => .str s
  | .arr xs => .arr (Parsed.rereadList xs)
  | .obj kvs => .obj (Parsed.rereadFields kvs)
/-- The elements of an array, written and read back. -/
def Parsed.rereadList : List Parsed → List Parsed
  | [] => []
  | x :: xs => Parsed.reread x :: Parsed.rereadList xs
/-- The properties of an object, written and read back. -/
def Parsed.rereadFields : List (String × Parsed) → List (String × Parsed)
  | [] => []
  | (k, x) :: kvs => (k, Parsed.reread x) :: Parsed.rereadFields kvs
end

mutual
/-- No number inside the value is infinite. -/
def Parsed.finite : Parsed → Bool
  | .infinity _ => false
  | .arr xs => Parsed.finiteList xs
  | .obj kvs => Parsed.finiteFields kvs
  | .null => true
  | .bool _ => true
  | .num _ => true
  | .str _ => true
/-- No number inside the elements is infinite. -/
def Parsed.finiteList : List Parsed → Bool
  | [] => true
  | x :: xs => Parsed.finite x && Parsed.finiteList xs
/-- No number inside the properties is infinite. -/
def Parsed.finiteFields : List (String × Parsed) → Bool
  | [] => true
  | (_, x) :: kvs => Parsed.finite x && Parsed.finiteFields kvs
end

/-- Property read on a parsed object; `none` is `undefined`. -/
def Parsed.getField (kvs : List (String × Parsed)) (key : String) : Option Parsed :=
  List.lookup key kvs

/-- Property write on a parsed object: an existing key keeps its place, a new
key is appended. -/
def Parsed.setField : List (String × Parsed) → String → Parsed → List (String × Parsed)
  | [], key, v => [(key, v)]
  | (k, w) :: rest, key, v =>
    if k = key then (k, v) :: rest else (k, w) :: Parsed.setField rest key v

/-- Method `saveData(data)` with the text it writes: stamp `lastUpdated`, write
`JSON.stringify(data)`; the result comes with the document a later
`JSON.parse` reads from the file (`file` is the one read before the call). -/
def saveDataText (h : Host) (data file : List (String × Parsed)) :
    Except JsError Bool × List (String × Parsed) :=
  if h.writeOk then
    (.ok true, Parsed.rereadFields (Parsed.setField data "lastUpdated" (.str h.isoNow)))
  else
    (.error .writeFailed, file)

/-- The round trip `saveData(getData())` on a backing whose text parses to the
object `file`: `getData` returns that object. -/
def roundTrip (h : Host) (file : List (String × Parsed)) :
    Except JsError Bool × List (String × Parsed) :=
  saveDataText h file file

/-! ## The delete-photo endpoint of `src/server.js` -/

/-- The answer a handler sends: the success object, status 404, or status 500
with the message of the error caught. -/
inductive Response where
  | success
  | notFound
  | serverError (e : JsError)
  deriving DecidableEq

/-- The test `!p.includes(filename)` on one element of `photos`: a string is
searched for the substring, an array for an element identical to the name; any
other value has no `includes` method and the call throws a `TypeError`. -/
def keepsPhoto (filename : String) : JVal → Except JsError Bool
  | .str p => .ok (!includes p filename)
  | .arr xs => .ok (!xs.any fun x => strictEq (some x) (.str filename))
  | _ => .error .typeError

/-- The loop of `photos.filter(p => !p.includes(filename))`. -/
def filterPhotoList (filename : String) : List JVal → Except JsError (List JVal)
  | [] => .ok []
  | p :: ps =>
    match keepsPhoto filename p with
    | .error e => .error e
    | .ok keep =>
      match filterPhotoList filename ps with
      | .error e => .error e
      | .ok rest => .ok (if keep then p :: rest else rest)

/-- The expression `evidence.photos.filter(p => !p.includes(filename))`; a
value of `photos` that is not an array has no `filter` method. -/
def filterPhotos (filename : String) : Option JVal → Except JsError (List JVal)
  | some (.arr ps) => filterPhotoList filename ps
  | _ => .error .typeError

/-- The handler of `DELETE /api/evidence/:id/photo/:filename`: find the
evidence by id (404 when there is none), remove the uploaded file (`unlink` is
the outcome of that step, which the store does not see), filter the photo list
and pass it to `updateEvidence`; any error thrown is answered with status
500. -/
def deletePhoto (h : Host) (id filename : String) (unlink : Except JsError Unit)
    (b : Backing) : Response × Backing :=
  match getEvidence h b with
  | (.error e, b1) => (.serverError e, b1)
  | (.ok es, b1) =>
    match es.find? (fun e => strictEq (e.getProp "id") (.str id)) with
    | none => (.notFound, b1)
    | some evidence =>
      match unlink with
      | .error e => (.serverError e, b1)
      | .ok _ =>
        match filterPhotos filename (evidence.getProp "photos") with
        | .error e => (.serverError e, b1)
        | .ok photos =>
          match updateEvidence h (.str id) [("photos", .arr photos)] b1 with
          | (.error e, b2) => (.serverError e, b2)
          | (.ok _, b2) => (.success, b2)

/-! ## Example inputs -/

/-- A host for the examples: the clock renders as a fixed string, a numeric
`dateTime` is its own time value, lower-casing acts on ASCII letters, and
writes succeed. -/
def demoHost : Host :=
  { clock := 1700000000000
    toISOString := fun _ => "2023-11-14T22:13:20.000Z"
    generateId := "lox8f2k0abc"
    parseDate := fun v => match v with
      | some (.num n) => some n
      | _ => none
    toLowerCase := fun s => String.mk (s.data.map Char.toLower)
    writeOk := true }

/-- A document with the given cases, evidence, timeline and documents. -/
def docOf (cs es ts ds : List Record) : Document :=
  { cases := some cs, evidence := some es, suspects := some [],
    witnesses := some [], timeline := some ts, documents := some ds,
    vehicles := some [], officers := some [], incidents := some [],
    lastUpdated := some (.str "2023-01-01T00:00:00.000Z") }

/-- No case, and one evidence record that refers to the case id `ghost`. -/
def orphanDoc : Document :=
  docOf [] [[("id", .str "e1"), ("caseId", .str "ghost")]] [] []

/-- Two cases, `c1` and `c2`. -/
def twoCases : List Record :=
  [[("id", .str "c1"), ("title", .str "Warehouse theft")],
   [("id", .str "c2"), ("title", .str "Harbour fraud")]]

/-- The case `c1` with one evidence, timeline and document record of its own,
next to a case `c2` with one of each as well. -/
def cascadeDoc : Document :=
  docOf twoCases
    [[("id", .str "e1"), ("caseId", .str "c1")], [("id", .str "e2"), ("caseId", .str "c2")]]
    [[("id", .str "t1"), ("caseId", .str "c1"), ("dateTime", .num 10)],
     [("id", .str "t2"), ("caseId", .str "c2"), ("dateTime", .num 20)]]
    [[("id", .str "d1"), ("caseId", .str "c1")], [("id", .str "d2"), ("caseId", .str "c2")]]

/-- A document with no record in any of the nine collections. -/
def blankDoc : Document :=
  docOf [] [] [] []

/-- A field bag that names `id`, `createdAt` and `updatedAt` itself. -/
def pushyFields : Record :=
  [("id", .str "other"), ("createdAt", .str "2000-01-01"), ("updatedAt", .str "1999-12-31"),
   ("title", .str "Renamed")]

/-- One case that carries its `createdAt`. -/
def oneCaseDoc : Document :=
  docOf [[("id", .str "c1"), ("title", .str "Warehouse theft"),
          ("createdAt", .str "2023-05-05T10:00:00.000Z"),
          ("updatedAt", .str "2023-05-05T10:00:00.000Z")]] [] [] []

/-- An unsorted timeline: the later event is stored first. -/
def unsortedTimeline : List Record :=
  [[("id", .str "t30"), ("dateTime", .num 30)], [("id", .str "t10"), ("dateTime", .num 10)]]

/-- A document holding the unsorted timeline. -/
def unsortedDoc : Document :=
  docOf [] [] unsortedTimeline []

/-- Two events of the same date, `a` stored before `b`. -/
def tiedTimeline : List Record :=
  [[("id", .str "a"), ("dateTime", .num 10)], [("id", .str "b"), ("dateTime", .num 10)]]

/-- A document holding the two tied events. -/
def tiedDoc : Document :=
  docOf [] [] tiedTimeline []

/-- The field list of the vehicles block of `search`. -/
def vehicleFields : List String :=
  ["plate", "vin", "make", "model", "color", "owner", "status", "notes"]

/-- A document with one vehicle, of plate `ABC123`. -/
def vehicleDoc : Document :=
  { blankDoc with
    vehicles := some [[("id", .str "v1"), ("plate", .str "ABC123"), ("make", .str "Ford")]] }

/-- The document the recovery branch of `getData` writes under the example host. -/
def recoveredDoc : Document :=
  emptyStructure demoHost

/-- A timeline whose second event has a `dateTime` that does not parse. -/
def brokenTimeline : List Record :=
  [[("id", .str "t3"), ("dateTime", .num 3)],
   [("id", .str "tx"), ("dateTime", .str "not a date")]]

/-- A document holding the timeline with the unparseable date. -/
def brokenDoc : Document :=
  docOf [] [] brokenTimeline []

/-- An evidence record with two photos whose names share the text `1.jpg`. -/
def photoEvidence : Record :=
  [("id", .str "e1"), ("caseId", .str "c1"),
   ("photos", .arr [.str "/uploads/1.jpg", .str "/uploads/11.jpg", .str "/uploads/2.png"])]

/-- A document holding the evidence record with photos. -/
def photoDoc : Document :=
  docOf [] [photoEvidence] [] []

/-- A parsed file whose one case has a `weight` written as `1e400`, which is
read as `Infinity`. -/
def heavyFile : List (String × Parsed) :=
  [("cases", .arr [.obj [("id", .str "c1"), ("weight", .infinity false)]]),
   ("evidence", .arr []),
   ("lastUpdated", .str "2023-01-01T00:00:00.000Z")]

/-- A parsed file all of whose numbers are finite. -/
def lightFile : List (String × Parsed) :=
  [("cases", .arr [.obj [("id", .str "c1"), ("weight", .num 12)]]),
   ("evidence", .arr []),
   ("lastUpdated", .str "2023-01-01T00:00:00.000Z")]

/-! ## Lemmas on the storage cycle -/

theorem getData_stored (h : Host) (d : Document) :
    getData h (.stored d) = (.ok d, .stored d) := by
  simp [getData, initializeDatabase, readParse]

theorem cycle_stored_save {α : Type} (h : Host) (d d1 : Document) (a : α)
    (mutate : Document → Except JsError (α × Option Document))
    (hm : mutate d = .ok (a, some d1)) (hw : h.writeOk = true) :
    cycle h (.stored d) mutate
      = (.ok a, .stored { d1 with lastUpdated := some (.str h.isoNow) }) := by
  simp [cycle, getData_stored, hm, saveData, hw]

theorem cycle_stored_throw {α : Type} (h : Host) (d : Document) (e : JsError)
    (mutate : Document → Except JsError (α × Option Document))
    (hm : mutate d = .error e) :
    cycle h (.stored d) mutate = (.error e, .stored d) := by
  simp [cycle, getData_stored, hm]

theorem filterColl_some (c : Coll) (keep : Record → Bool) (data : Document)
    (xs : List Record) (hx : data.coll c = some xs) :
    filterColl c keep data = .ok (data.setColl c (xs.filter keep)) := by
  simp [filterColl, hx]

/-- What `deleteCase` does to a stored document that has the four collections
it filters. -/
theorem deleteCase_stored (h : Host) (d : Document) (id : JVal)
    (cs es ts ds : List Record)
    (hc : d.cases = some cs) (he : d.evidence = some es)
    (ht : d.timeline = some ts) (hd : d.documents = some ds)
    (hw : h.writeOk = true) :
    deleteCase h id (.stored d) =
      (.ok true, .stored { d with
        cases := some (cs.filter fun c => !strictEq (c.getProp "id") id)
        evidence := some (es.filter fun e => !strictEq (e.getProp "caseId") id)
        timeline := some (ts.filter fun t => !strictEq (t.getProp "caseId") id)
        documents := some (ds.filter fun x => !strictEq (x.getProp "caseId") id)
        lastUpdated := some (.str h.isoNow) }) := by
  unfold deleteCase
  rw [cycle_stored_save h d
    { d with
      cases := some (cs.filter fun c => !strictEq (c.getProp "id") id)
      evidence := some (es.filter fun e => !strictEq (e.getProp "caseId") id)
      timeline := some (ts.filter fun t => !strictEq (t.getProp "caseId") id)
      documents := some (ds.filter fun x => !strictEq (x.getProp "caseId") id) } true _ _ hw]
  simp [filterColl, Document.coll, Document.setColl, hc, he, ht, hd, bind, Except.bind, pure,
    Except.pure]

/-! ## Lemmas on records -/

theorem getProp_setProp_same (r : Record) (k : String) (v : JVal) :
    Record.getProp (Record.setProp r k v) k = some v := by
  induction r with
  | nil => simp [Record.setProp, Record.getProp, List.lookup]
  | cons p rest ih =>
    obtain ⟨k0, w⟩ := p
    by_cases hk : k0 = k
    · simp [Record.setProp, Record.getProp, hk]
    · have hb : (k == k0) = false := by simpa using fun e : k = k0 => hk e.symm
      simpa [Record.setProp, Record.getProp, hk, List.lookup, hb] using ih

theorem getProp_setProp_ne (r : Record) (k k1 : String) (v : JVal) (hne : k ≠ k1) :
    Record.getProp (Record.setProp r k v) k1 = Record.getProp r k1 := by
  induction r with
  | nil =>
    have hb : (k1 == k) = false := by simpa using fun e : k1 = k => hne e.symm
    simp [Record.setProp, Record.getProp, List.lookup, hb]
  | cons p rest ih =>
    obtain ⟨k0, w⟩ := p
    by_cases hk : k0 = k
    · subst hk
      have hb : (k1 == k0) = false := by simpa using fun e : k1 = k0 => hne e.symm
      simp [Record.setProp, Record.getProp, List.lookup, hb]
    · by_cases h1 : k1 = k0
      · subst h1
        simp [Record.setProp, Record.getProp, hk]
      · have hb : (k1 == k0) = false := by simpa using h1
        simpa [Record.setProp, Record.getProp, hk, List.lookup, hb] using ih

theorem getProp_copyProps (source : Record) (l : List (String × JVal)) (target : Record)
    (k : String) :
    Record.getProp (Record.copyProps source l target) k =
      if k ∈ l.map Prod.fst then (Record.getProp source k).or (Record.getProp target k)
      else Record.getProp target k := by
  induction l generalizing target with
  | nil => simp [Record.copyProps]
  | cons p more ih =>
    obtain ⟨k0, w⟩ := p
    simp only [Record.copyProps, ih, List.map_cons, List.mem_cons]
    by_cases hk : k = k0
    · subst hk
      cases hs : Record.getProp source k with
      | none => simp
      | some v => simp [getProp_setProp_same]
    · have hne : k0 ≠ k := fun e => hk e.symm
      by_cases hm : k ∈ List.map Prod.fst more <;>
        cases hs : Record.getProp source k0 <;>
        simp [hk, hm, getProp_setProp_ne _ _ _ _ hne]

/-- A property read on `{ ...target, ...source }`: the property of `source`
when it has one, that of `target` otherwise. -/
theorem getProp_spread (target source : Record) (k : String) :
    Record.getProp (Record.spread target source) k =
      (Record.getProp source k).or (Record.getProp target k) := by
  rw [Record.spread, getProp_copyProps]
  split
  · rfl
  · rename_i hmem
    have hnone : Record.getProp source k = none := by
      rw [Record.getProp, List.lookup_eq_none_iff]
      intro p hp
      simp only [bne_iff_ne, ne_eq]
      intro e
      exact hmem (List.mem_map.2 ⟨p, hp, e.symm⟩)
    simp [hnone]

theorem getProp_newRecord_id (h : Host) (fields : Record) :
    Record.getProp (newRecord h fields) "id"
      = some ((Record.getProp fields "id").getD (.str h.generateId)) := by
  simp only [newRecord]
  rw [getProp_setProp_ne _ _ _ _ (by decide), getProp_setProp_ne _ _ _ _ (by decide),
    getProp_spread, getProp_setProp_same]
  cases Record.getProp fields "id" <;> rfl

theorem getProp_newEvent_id (h : Host) (fields : Record) :
    Record.getProp (newEvent h fields) "id"
      = some ((Record.getProp fields "id").getD (.str h.generateId)) := by
  simp only [newEvent]
  rw [getProp_setProp_ne _ _ _ _ (by decide), getProp_spread, getProp_setProp_same]
  cases Record.getProp fields "id" <;> rfl

theorem getProp_mergedRecord (h : Host) (existing : Record) (updates : Record) (k : String)
    (hk : k ≠ "updatedAt") :
    Record.getProp (mergedRecord h (some existing) updates) k
      = (Record.getProp updates k).or (Record.getProp existing k) := by
  simp only [mergedRecord, Option.getD_some]
  rw [getProp_setProp_ne _ _ _ _ (fun e => hk e.symm), getProp_spread, getProp_spread]
  simp [Record.getProp]

theorem findIndex_lt (p : Record → Bool) (xs : List Record) (n : Nat)
    (hn : findIndex p xs = some n) : n < xs.length := by
  induction xs generalizing n with
  | nil => simp [findIndex] at hn
  | cons x rest ih =>
    simp only [findIndex] at hn
    split at hn
    · have h0 : 0 = n := by simpa using hn
      subst h0
      simp
    · cases hr : findIndex p rest with
      | none => simp [hr] at hn
      | some m =>
        simp [hr] at hn
        have := ih m hr
        simp
        omega

theorem findIndex_sat (p : Record → Bool) (xs : List Record) (n : Nat)
    (hn : findIndex p xs = some n) : ∃ x, xs.get? n = some x ∧ p x = true := by
  induction xs generalizing n with
  | nil => simp [findIndex] at hn
  | cons x rest ih =>
    simp only [findIndex] at hn
    split at hn
    · rename_i hp
      simp at hn
      subst hn
      exact ⟨x, rfl, hp⟩
    · cases hr : findIndex p rest with
      | none => simp [hr] at hn
      | some m =>
        simp [hr] at hn
        subst hn
        simpa using ih m hr

/-- What an add operation other than `addTimelineEvent` does to a stored
document that has the collection. -/
theorem addRecord_stored (c : Coll) (h : Host) (d : Document) (fields : Record)
    (xs : List Record) (hx : d.coll c = some xs) (hw : h.writeOk = true) :
    addRecord c h fields (.stored d) =
      (.ok (newRecord h fields),
       .stored { d.setColl c (xs ++ [newRecord h fields]) with
                 lastUpdated := some (.str h.isoNow) }) := by
  unfold addRecord
  exact cycle_stored_save h d _ _ _ (by simp [hx]) hw

/-- What an update operation other than `updateTimelineEvent` does to a stored
document in which the id is found. -/
theorem updateRecord_stored (c : Coll) (h : Host) (d : Document) (id : JVal)
    (updates : Record) (xs : List Record) (n : Nat) (old : Record)
    (hx : d.coll c = some xs)
    (hn : findIndex (fun r => strictEq (r.getProp "id") id) xs = some n)
    (ho : xs.get? n = some old) (hw : h.writeOk = true) :
    updateRecord c h id updates (.stored d) =
      (.ok (some (mergedRecord h (some old) updates)),
       .stored { d.setColl c (xs.set n (mergedRecord h (some old) updates)) with
                 lastUpdated := some (.str h.isoNow) }) := by
  unfold updateRecord
  have hlt := findIndex_lt _ _ _ hn
  have hget : xs[n]? = some old := by simpa [List.get?_eq_getElem?] using ho
  refine cycle_stored_save h d _ _ _ ?_ hw
  simp [hx, hn, hget, List.getElem?_set, hlt]

theorem coll_setColl_same (d : Document) (c : Coll) (xs : List Record) :
    (d.setColl c xs).coll c = some xs := by
  cases c <;> rfl

theorem coll_setColl_ne (d : Document) (c c1 : Coll) (xs : List Record) (hne : c ≠ c1) :
    (d.setColl c xs).coll c1 = d.coll c1 := by
  cases c <;> cases c1 <;> first | rfl | exact absurd rfl hne

theorem coll_stamp (d : Document) (v : Option JVal) (c : Coll) :
    ({ d with lastUpdated := v } : Document).coll c = d.coll c := by
  cases c <;> rfl

theorem getProp_newRecord_stamps (h : Host) (fields : Record) :
    Record.getProp (newRecord h fields) "createdAt" = some (.str h.isoNow) ∧
    Record.getProp (newRecord h fields) "updatedAt" = some (.str h.isoNow) := by
  simp only [newRecord]
  constructor
  · rw [getProp_setProp_ne _ _ _ _ (by decide), getProp_setProp_same]
  · rw [getProp_setProp_same]

/-- What `addTimelineEvent` does to a stored document that has a timeline. -/
theorem addTimelineEvent_stored (h : Host) (d : Document) (fields : Record)
    (ts : List Record) (ht : d.timeline = some ts) (hw : h.writeOk = true) :
    addTimelineEvent h fields (.stored d) =
      (.ok (newEvent h fields),
       .stored { d.setColl .timeline (sortTimeline h (ts ++ [newEvent h fields])) with
                 lastUpdated := some (.str h.isoNow) }) := by
  unfold addTimelineEvent
  exact cycle_stored_save h d _ _ _ (by simp [ht]) hw

/-! ## Lemmas on the timeline sort -/

theorem dateLe_of_sortCompare (h : Host) (a b : Record)
    (ha : (dateOf h a).isSome = true) (hb : (dateOf h b).isSome = true)
    (hle : sortCompare h a b ≤ 0) : dateLe h a b = true := by
  obtain ⟨x, hx⟩ := Option.isSome_iff_exists.1 ha
  obtain ⟨y, hy⟩ := Option.isSome_iff_exists.1 hb
  simp only [sortCompare, compareDateTime, hx, hy, Option.getD_some] at hle
  simp only [dateLe, hx, hy, decide_eq_true_eq]
  omega

theorem dateLe_of_not_sortCompare (h : Host) (a b : Record)
    (hnle : ¬ sortCompare h a b ≤ 0) : dateLe h b a = true := by
  unfold sortCompare compareDateTime at hnle
  unfold dateLe
  cases hx : dateOf h a <;> cases hy : dateOf h b <;> simp [hx, hy] at hnle ⊢
  omega

theorem dateLe_trans (h : Host) (a b c : Record)
    (hab : dateLe h a b = true) (hbc : dateLe h b c = true) : dateLe h a c = true := by
  unfold dateLe at *
  cases hx : dateOf h a <;> cases hy : dateOf h b <;> cases hz : dateOf h c <;>
    simp [hx, hy, hz] at hab hbc ⊢
  omega

theorem dateSorted_orderedInsert (h : Host) (a : Record) (l : List Record)
    (hv : ∀ r ∈ a :: l, (dateOf h r).isSome = true) (hs : DateSorted h l) :
    DateSorted h (l.orderedInsert (fun a b => sortCompare h a b ≤ 0) a) := by
  induction l with
  | nil => simp [DateSorted]
  | cons b l ih =>
    have ha := hv a (by simp)
    have hb := hv b (by simp)
    have hsb := List.pairwise_cons.1 hs
    by_cases hle : sortCompare h a b ≤ 0
    · simp only [List.orderedInsert, hle, if_true]
      refine List.pairwise_cons.2 ⟨?_, hs⟩
      intro c hc
      have hab := dateLe_of_sortCompare h a b ha hb hle
      rcases List.mem_cons.1 hc with rfl | hcl
      · exact hab
      · exact dateLe_trans h a b c hab (hsb.1 c hcl)
    · simp only [List.orderedInsert, hle, if_false]
      refine List.pairwise_cons.2 ⟨?_, ih (fun r hr => hv r ?_) hsb.2⟩
      · intro c hc
        rcases (List.mem_orderedInsert _).1 hc with rfl | hcl
        · exact dateLe_of_not_sortCompare h _ b hle
        · exact hsb.1 c hcl
      · rcases List.mem_cons.1 hr with rfl | hrl
        · simp
        · simp [hrl]

/-- Sorting a timeline whose dates are all valid gives a list in
non-decreasing order of date. -/
theorem dateSorted_sortTimeline (h : Host) (xs : List Record)
    (hv : ∀ r ∈ xs, (dateOf h r).isSome = true) : DateSorted h (sortTimeline h xs) := by
  induction xs with
  | nil => simp [sortTimeline, DateSorted]
  | cons a l ih =>
    have hl := ih fun r hr => hv r (by simp [hr])
    refine dateSorted_orderedInsert h a _ ?_ hl
    intro r hr
    rcases List.mem_cons.1 hr with rfl | hrl
    · exact hv _ (by simp)
    · exact hv r (by simp [(List.mem_insertionSort _).1 hrl])

theorem perm_sortTimeline (h : Host) (xs : List Record) :
    (sortTimeline h xs).Perm xs :=
  List.perm_insertionSort _ xs

theorem filter_orderedInsert (h : Host) (t : Int) (a : Record) (l : List Record) :
    (l.orderedInsert (fun a b => sortCompare h a b ≤ 0) a).filter
        (fun r => dateOf h r == some t)
      = (a :: l).filter (fun r => dateOf h r == some t) := by
  induction l with
  | nil => simp
  | cons b l ih =>
    by_cases hle : sortCompare h a b ≤ 0
    · simp only [List.orderedInsert, hle, if_true]
    · simp only [List.orderedInsert, hle, if_false]
      rw [List.filter_cons, ih]
      have hne : ¬ ((dateOf h a == some t) = true ∧ (dateOf h b == some t) = true) := by
        rintro ⟨h1, h2⟩
        have e1 : dateOf h a = some t := by simpa using h1
        have e2 : dateOf h b = some t := by simpa using h2
        simp [sortCompare, compareDateTime, e1, e2] at hle
      by_cases h1 : (dateOf h a == some t) = true <;>
        by_cases h2 : (dateOf h b == some t) = true <;>
        simp [List.filter_cons, h1, h2] at hne ⊢

/-- The sort is stable: the records of any one date keep their order. -/
theorem filter_sortTimeline (h : Host) (t : Int) (xs : List Record) :
    (sortTimeline h xs).filter (fun r => dateOf h r == some t)
      = xs.filter (fun r => dateOf h r == some t) := by
  induction xs with
  | nil => simp [sortTimeline]
  | cons a l ih =>
    have hstep : sortTimeline h (a :: l)
        = (sortTimeline h l).orderedInsert (fun a b => sortCompare h a b ≤ 0) a := rfl
    rw [hstep, filter_orderedInsert, List.filter_cons, List.filter_cons, ih]

/-- What `updateTimelineEvent` does to a stored document in which the id is
found. -/
theorem updateTimelineEvent_stored (h : Host) (d : Document) (id : JVal)
    (updates : Record) (ts : List Record) (n : Nat) (old : Record)
    (ht : d.timeline = some ts)
    (hn : findIndex (fun t => strictEq (t.getProp "id") id) ts = some n)
    (ho : ts.get? n = some old) (hw : h.writeOk = true) :
    updateTimelineEvent h id updates (.stored d) =
      (.ok ((sortTimeline h (ts.set n (mergedRecord h (some old) updates))).get? n),
       .stored { d.setColl .timeline
                   (sortTimeline h (ts.set n (mergedRecord h (some old) updates))) with
                 lastUpdated := some (.str h.isoNow) }) := by
  unfold updateTimelineEvent
  have hget : ts[n]? = some old := by simpa [List.get?_eq_getElem?] using ho
  refine cycle_stored_save h d _ _ _ ?_ hw
  simp [ht, hn, hget]

/-! ## Lemmas on search -/

theorem getColl_stored (c : Coll) (h : Host) (d : Document) :
    getColl c h (.stored d) = (.ok (d.records c), .stored d) := by
  simp [getColl, getData_stored]

theorem pushMatching_some (keep : Record → Bool) (xs out : List Record) :
    pushMatching keep xs (some out) = .ok (some (out ++ xs.filter keep)) := by
  induction xs generalizing out with
  | nil => simp [pushMatching]
  | cons x xs ih =>
    by_cases hk : keep x = true
    · simp [pushMatching, hk, ih]
    · simp [pushMatching, hk, ih]

theorem pushMatching_none (keep : Record → Bool) (xs : List Record) :
    pushMatching keep xs none
      = if xs.any keep then .error .typeError else .ok none := by
  induction xs with
  | nil => simp [pushMatching]
  | cons x xs ih =>
    by_cases hk : keep x = true
    · simp [pushMatching, hk]
    · simp [pushMatching, hk, ih]

theorem searchBlock_stored_some (h : Host) (c : Coll) (fields : List String)
    (q : String) (d : Document) :
    searchBlock h c fields q (some []) (.stored d)
      = (.ok (some ((d.records c).filter fun r => matchesSearch h r q fields)), .stored d) := by
  simp [searchBlock, getColl_stored, pushMatching_some]

/-- Whenever a stored vehicle matches the query, `search` throws: the push on
`results.vehicles` finds no array. -/
theorem search_throws_of_vehicle_match (h : Host) (d : Document) (query : String)
    (v : Record) (hv : v ∈ d.records .vehicles)
    (hm : matchesSearch h v (h.toLowerCase query) vehicleFields = true) :
    search h query (.stored d) = (.error .typeError, .stored d) := by
  have hany : ((d.records .vehicles).any
      fun r => matchesSearch h r (h.toLowerCase query) vehicleFields) = true :=
    List.any_eq_true.2 ⟨v, hv, hm⟩
  have hblock : searchBlock h .vehicles vehicleFields (h.toLowerCase query) none (.stored d)
      = (.error .typeError, .stored d) := by
    simp [searchBlock, getColl_stored, pushMatching_none, hany]
  unfold vehicleFields at hblock
  simp only [search, searchBlock_stored_some, hblock]

/-- The result of `search` on a stored document none of whose vehicles
matches: the six arrays hold the matching records in stored order and
`results` has no `vehicles` key. -/
theorem search_stored_of_no_vehicle_match (h : Host) (d : Document) (query : String)
    (hnone : ((d.records .vehicles).any
      fun r => matchesSearch h r (h.toLowerCase query) (searchFields .vehicles)) = false) :
    search h query (.stored d) =
      (.ok
        { cases := some ((d.records .cases).filter fun r =>
            matchesSearch h r (h.toLowerCase query) (searchFields .cases))
          evidence := some ((d.records .evidence).filter fun r =>
            matchesSearch h r (h.toLowerCase query) (searchFields .evidence))
          suspects := some ((d.records .suspects).filter fun r =>
            matchesSearch h r (h.toLowerCase query) (searchFields .suspects))
          witnesses := some ((d.records .witnesses).filter fun r =>
            matchesSearch h r (h.toLowerCase query) (searchFields .witnesses))
          timeline := some ((d.records .timeline).filter fun r =>
            matchesSearch h r (h.toLowerCase query) (searchFields .timeline))
          documents := some ((d.records .documents).filter fun r =>
            matchesSearch h r (h.toLowerCase query) (searchFields .documents))
          vehicles := none },
       .stored d) := by
  have hblock : searchBlock h .vehicles (searchFields .vehicles) (h.toLowerCase query) none
      (.stored d) = (.ok none, .stored d) := by
    simp [searchBlock, getColl_stored, pushMatching_none, hnone]
  simp only [searchFields] at hblock
  simp only [search, searchBlock_stored_some, hblock, searchFields]

theorem includes_empty_haystack (needle : String) :
    includes "" needle = true ↔ needle = "" := by
  simp [includes, String.ext_iff]

/-- For a non-empty query, on a host whose lower-casing keeps the empty string
apart from the others, the test of the code is the match of the
specification. -/
theorem matchesSearch_eq_specMatches (h : Host) (r : Record) (q : String)
    (fields : List String) (hq : q ≠ "")
    (hlow : ∀ s : String, h.toLowerCase s = "" ↔ s = "") :
    matchesSearch h r (h.toLowerCase q) fields = specMatches h r q fields := by
  unfold matchesSearch specMatches
  congr 1
  funext field
  split
  · rename_i value _
    by_cases hv : value = ""
    · subst hv
      have hlq : h.toLowerCase q ≠ "" := fun e => hq ((hlow q).1 e)
      have hfalse : includes "" (h.toLowerCase q) = false := by
        cases hi : includes "" (h.toLowerCase q) with
        | false => rfl
        | true => exact absurd ((includes_empty_haystack _).1 hi) hlq
      simp [(hlow "").2 rfl, hfalse]
    · simp [hv]
  · rfl

theorem demoHost_toLowerCase_empty (s : String) :
    demoHost.toLowerCase s = "" ↔ s = "" := by
  simp [demoHost, String.ext_iff]

theorem getData_corrupt (h : Host) (hw : h.writeOk = true) :
    getData h .corrupt = (.ok (emptyStructure h), .stored (emptyStructure h)) := by
  simp [getData, initializeDatabase, readParse, saveData, hw, emptyStructure]

theorem getData_missing (h : Host) (hw : h.writeOk = true) :
    getData h .missing = (.ok (initialData h), .stored (initialData h)) := by
  simp [getData, initializeDatabase, readParse, saveData, hw, initialData]

theorem cycle_stored_nosave {α : Type} (h : Host) (d : Document) (a : α)
    (mutate : Document → Except JsError (α × Option Document))
    (hm : mutate d = .ok (a, none)) :
    cycle h (.stored d) mutate = (.ok a, .stored d) := by
  simp [cycle, getData_stored, hm]

theorem findIndex_eq_none (p : Record → Bool) (xs : List Record)
    (hp : ∀ x ∈ xs, p x = false) : findIndex p xs = none := by
  induction xs with
  | nil => rfl
  | cons x rest ih =>
    have hx : p x = false := hp x (by simp)
    simp [findIndex, hx, ih fun y hy => hp y (by simp [hy])]

/-- An update operation other than `updateTimelineEvent`, on a stored document
that has the collection but no record of that id: `null`, and no save. -/
theorem updateRecord_not_found (c : Coll) (h : Host) (d : Document) (id : JVal)
    (updates : Record) (xs : List Record) (hx : d.coll c = some xs)
    (hid : ∀ r ∈ xs, strictEq (r.getProp "id") id = false) :
    updateRecord c h id updates (.stored d) = (.ok none, .stored d) := by
  unfold updateRecord
  refine cycle_stored_nosave h d _ _ ?_
  simp [hx, findIndex_eq_none _ xs hid]

theorem updateTimelineEvent_not_found (h : Host) (d : Document) (id : JVal)
    (updates : Record) (ts : List Record) (ht : d.timeline = some ts)
    (hid : ∀ r ∈ ts, strictEq (r.getProp "id") id = false) :
    updateTimelineEvent h id updates (.stored d) = (.ok none, .stored d) := by
  unfold updateTimelineEvent
  refine cycle_stored_nosave h d _ _ ?_
  simp [ht, findIndex_eq_none _ ts hid]

/-- A delete operation other than `deleteCase`, on a stored document that has
the collection. -/
theorem deleteRecord_stored (c : Coll) (h : Host) (d : Document) (id : JVal)
    (xs : List Record) (hx : d.coll c = some xs) (hw : h.writeOk = true) :
    deleteRecord c h id (.stored d) =
      (.ok true,
       .stored { d.setColl c (xs.filter fun r => !strictEq (r.getProp "id") id) with
                 lastUpdated := some (.str h.isoNow) }) := by
  unfold deleteRecord
  refine cycle_stored_save h d _ _ _ ?_ hw
  simp [filterColl, hx, bind, Except.bind, pure, Except.pure]

theorem getProp_newRecord_field (h : Host) (fields : Record) (k : String) (v : JVal)
    (hc : k ≠ "createdAt") (hu : k ≠ "updatedAt") (hk : Record.getProp fields k = some v) :
    Record.getProp (newRecord h fields) k = some v := by
  simp only [newRecord]
  rw [getProp_setProp_ne _ _ _ _ (fun e => hu e.symm),
    getProp_setProp_ne _ _ _ _ (fun e => hc e.symm), getProp_spread, hk]
  rfl

theorem getProp_mergedRecord_updatedAt (h : Host) (existing : Option Record)
    (updates : Record) :
    Record.getProp (mergedRecord h existing updates) "updatedAt" = some (.str h.isoNow) := by
  simp only [mergedRecord]
  rw [getProp_setProp_same]

/-! ## Lemmas on the identifier invariant -/

theorem idsDistinct_filter (xs : List Record) (keep : Record → Bool)
    (hx : IdsDistinct xs) : IdsDistinct (xs.filter keep) :=
  List.Nodup.sublist ((List.filter_sublist xs).map _) hx

theorem idsDistinct_perm (xs ys : List Record) (hp : xs.Perm ys)
    (hy : IdsDistinct ys) : IdsDistinct xs :=
  (hp.map _).nodup_iff.2 hy

theorem idsDistinct_append_fresh (xs : List Record) (r : Record) (hx : IdsDistinct xs)
    (hfresh : ∀ x ∈ xs, Record.getProp x "id" ≠ Record.getProp r "id") :
    IdsDistinct (xs ++ [r]) := by
  unfold IdsDistinct at *
  rw [List.map_append, List.nodup_append]
  refine ⟨hx, by simp, ?_⟩
  intro a ha hb
  obtain ⟨x, hxm, rfl⟩ := List.mem_map.1 ha
  have hxr : Record.getProp x "id" = Record.getProp r "id" := by simpa using hb
  exact hfresh x hxm hxr

theorem map_id_set (xs : List Record) (n : Nat) (old r : Record)
    (ho : xs.get? n = some old)
    (hr : Record.getProp r "id" = Record.getProp old "id") :
    (xs.set n r).map (fun x => Record.getProp x "id")
      = xs.map (fun x => Record.getProp x "id") := by
  induction xs generalizing n with
  | nil => simp
  | cons x rest ih =>
    cases n with
    | zero =>
      have hx : x = old := by simpa using ho
      simp [hx, hr]
    | succ m =>
      have hm : rest.get? m = some old := by simpa using ho
      simp [ih m hm]

theorem idsDistinct_set (xs : List Record) (n : Nat) (old r : Record)
    (hx : IdsDistinct xs) (ho : xs.get? n = some old)
    (hr : Record.getProp r "id" = Record.getProp old "id") :
    IdsDistinct (xs.set n r) := by
  unfold IdsDistinct
  rw [map_id_set xs n old r ho hr]
  exact hx

theorem records_of_coll (d : Document) (c : Coll) (xs : List Record)
    (hx : d.coll c = some xs) : d.records c = xs := by
  simp [Document.records, hx]

theorem idsDistinct_setColl (d : Document) (c : Coll) (ys : List Record)
    (hd : d.idsDistinct) (hy : IdsDistinct ys) : (d.setColl c ys).idsDistinct := by
  intro c1
  by_cases hc : c = c1
  · subst hc
    rw [records_of_coll _ _ _ (coll_setColl_same d c ys)]
    exact hy
  · have := hd c1
    simpa [Document.records, coll_setColl_ne d c c1 ys hc] using this

theorem idsDistinct_stamp (d : Document) (v : Option JVal) (hd : d.idsDistinct) :
    ({ d with lastUpdated := v } : Document).idsDistinct := by
  intro c
  have := hd c
  simpa [Document.records, coll_stamp] using this

/-- The backing a cycle leaves on a stored document holds a document that
satisfies an invariant, when the document saved by the mutation does. -/
theorem cycle_stored_preserves {α : Type} (h : Host) (d : Document)
    (mutate : Document → Except JsError (α × Option Document))
    (hd : d.idsDistinct)
    (hm : ∀ a d1, mutate d = .ok (a, some d1) → d1.idsDistinct) :
    ∃ d2, (cycle h (.stored d) mutate).2 = .stored d2 ∧ d2.idsDistinct := by
  simp only [cycle, getData_stored]
  cases hmut : mutate d with
  | error e => exact ⟨d, rfl, hd⟩
  | ok res =>
    obtain ⟨a, saved⟩ := res
    cases saved with
    | none => exact ⟨d, rfl, hd⟩
    | some d1 =>
      by_cases hw : h.writeOk = true
      · exact ⟨{ d1 with lastUpdated := some (.str h.isoNow) }, by simp [saveData, hw],
          idsDistinct_stamp _ _ (hm a d1 hmut)⟩
      · exact ⟨d, by simp [saveData, hw], hd⟩

theorem filterColl_preserves (c : Coll) (keep : Record → Bool) (d d1 : Document)
    (hd : d.idsDistinct) (hf : filterColl c keep d = .ok d1) : d1.idsDistinct := by
  unfold filterColl at hf
  cases hc : d.coll c with
  | none => simp [hc] at hf
  | some xs =>
    simp [hc] at hf
    subst hf
    refine idsDistinct_setColl d c _ hd (idsDistinct_filter xs keep ?_)
    rw [← records_of_coll d c xs hc]
    exact hd c

theorem addRecord_preserves (c : Coll) (h : Host) (d : Document) (fields : Record)
    (hd : d.idsDistinct)
    (hfresh : ∀ r ∈ d.records c, Record.getProp r "id" ≠ some (receivedId h fields)) :
    ∃ d2, (addRecord c h fields (.stored d)).2 = .stored d2 ∧ d2.idsDistinct := by
  refine cycle_stored_preserves h d _ hd ?_
  intro a d1 hmut
  cases hc : d.coll c with
  | none => simp [hc] at hmut
  | some xs =>
    simp [hc] at hmut
    rw [← hmut.2]
    have hrec := records_of_coll d c xs hc
    refine idsDistinct_setColl d c _ hd (idsDistinct_append_fresh xs _ (hrec ▸ hd c) ?_)
    intro x hxm
    rw [getProp_newRecord_id]
    exact hfresh x (hrec ▸ hxm)

theorem addTimelineEvent_preserves (h : Host) (d : Document) (fields : Record)
    (hd : d.idsDistinct)
    (hfresh : ∀ r ∈ d.records .timeline,
      Record.getProp r "id" ≠ some (receivedId h fields)) :
    ∃ d2, (addTimelineEvent h fields (.stored d)).2 = .stored d2 ∧ d2.idsDistinct := by
  refine cycle_stored_preserves h d _ hd ?_
  intro a d1 hmut
  cases hc : d.timeline with
  | none => simp [hc] at hmut
  | some ts =>
    simp [hc] at hmut
    rw [← hmut.2]
    have hrec : d.records .timeline = ts := records_of_coll d .timeline ts hc
    refine idsDistinct_setColl d .timeline _ hd
      (idsDistinct_perm _ _ (perm_sortTimeline h _)
        (idsDistinct_append_fresh ts _ (hrec ▸ hd .timeline) ?_))
    intro x hxm
    rw [getProp_newEvent_id]
    exact hfresh x (hrec ▸ hxm)

theorem mergedRecord_keeps_id (h : Host) (old updates : Record)
    (hid : Record.getProp updates "id" = none) :
    Record.getProp (mergedRecord h (some old) updates) "id" = Record.getProp old "id" := by
  rw [getProp_mergedRecord h old updates "id" (by decide), hid]
  rfl

theorem mergedRecord_takes_id (h : Host) (old updates : Record) (v : JVal)
    (hid : Record.getProp updates "id" = some v) :
    Record.getProp (mergedRecord h (some old) updates) "id" = some v := by
  rw [getProp_mergedRecord h old updates "id" (by decide), hid]
  rfl

/-- Replacing one record by a record whose id no other record holds keeps the
ids pairwise different. -/
theorem idsDistinct_set_fresh (xs : List Record) (n : Nat) (r : Record)
    (hx : IdsDistinct xs)
    (hfresh : ∀ x ∈ xs.eraseIdx n, Record.getProp x "id" ≠ Record.getProp r "id") :
    IdsDistinct (xs.set n r) := by
  unfold IdsDistinct at *
  induction xs generalizing n with
  | nil => simp
  | cons x rest ih =>
    have hx1 := List.nodup_cons.1 hx
    cases n with
    | zero =>
      simp only [List.set_cons_zero, List.map_cons]
      refine List.nodup_cons.2 ⟨?_, hx1.2⟩
      intro hmem
      obtain ⟨y, hy, hyr⟩ := List.mem_map.1 hmem
      exact hfresh y (by simpa using hy) hyr
    | succ m =>
      simp only [List.set_cons_succ, List.map_cons]
      refine List.nodup_cons.2 ⟨?_, ih m hx1.2 fun y hy => hfresh y (by simp [hy])⟩
      intro hmem
      obtain ⟨y, hy, hyx⟩ := List.mem_map.1 hmem
      rcases List.mem_or_eq_of_mem_set hy with hyrest | rfl
      · exact hx1.1 (List.mem_map.2 ⟨y, hyrest, hyx⟩)
      · exact hfresh x (by simp) hyx.symm

/-- The record an update stores keeps the ids of the list pairwise different
when its bag names no id that another record holds. -/
theorem idsDistinct_set_merged (h : Host) (id : JVal) (updates : Record)
    (xs : List Record) (n : Nat) (old : Record) (hx : IdsDistinct xs)
    (hn : findIndex (fun r => strictEq (Record.getProp r "id") id) xs = some n)
    (ho : xs.get? n = some old)
    (hother : namesNoOtherId id updates xs = true) :
    IdsDistinct (xs.set n (mergedRecord h (some old) updates)) := by
  cases hu : Record.getProp updates "id" with
  | none => exact idsDistinct_set xs n old _ hx ho (mergedRecord_keeps_id h old updates hu)
  | some v =>
    refine idsDistinct_set_fresh xs n _ hx ?_
    intro x hxm
    rw [mergedRecord_takes_id h old updates v hu]
    simp only [namesNoOtherId, hu, hn, List.all_eq_true] at hother
    simpa using hother x hxm

theorem updateRecord_preserves (c : Coll) (h : Host) (d : Document) (id : JVal)
    (updates : Record) (hd : d.idsDistinct)
    (hother : namesNoOtherId id updates (d.records c) = true) :
    ∃ d2, (updateRecord c h id updates (.stored d)).2 = .stored d2 ∧ d2.idsDistinct := by
  refine cycle_stored_preserves h d _ hd ?_
  intro a d1 hmut
  cases hc : d.coll c with
  | none => simp [hc] at hmut
  | some xs =>
    cases hn : findIndex (fun r => strictEq (Record.getProp r "id") id) xs with
    | none => simp [hc, hn] at hmut
    | some n =>
      obtain ⟨old, ho, _⟩ := findIndex_sat _ _ _ hn
      have hget : xs[n]? = some old := by simpa [List.get?_eq_getElem?] using ho
      simp [hc, hn, hget] at hmut
      rw [← hmut.2]
      have hrec := records_of_coll d c xs hc
      rw [hrec] at hother
      exact idsDistinct_setColl d c _ hd
        (idsDistinct_set_merged h id updates xs n old (hrec ▸ hd c) hn ho hother)

theorem updateTimelineEvent_preserves (h : Host) (d : Document) (id : JVal)
    (updates : Record) (hd : d.idsDistinct)
    (hother : namesNoOtherId id updates (d.records .timeline) = true) :
    ∃ d2, (updateTimelineEvent h id updates (.stored d)).2 = .stored d2 ∧ d2.idsDistinct := by
  refine cycle_stored_preserves h d _ hd ?_
  intro a d1 hmut
  cases hc : d.timeline with
  | none => simp [hc] at hmut
  | some ts =>
    cases hn : findIndex (fun r => strictEq (Record.getProp r "id") id) ts with
    | none => simp [hc, hn] at hmut
    | some n =>
      obtain ⟨old, ho, _⟩ := findIndex_sat _ _ _ hn
      have hget : ts[n]? = some old := by simpa [List.get?_eq_getElem?] using ho
      simp [hc, hn, hget] at hmut
      rw [← hmut.2]
      have hrec : d.records .timeline = ts := records_of_coll d .timeline ts hc
      rw [hrec] at hother
      exact idsDistinct_setColl d .timeline _ hd
        (idsDistinct_perm _ _ (perm_sortTimeline h _)
          (idsDistinct_set_merged h id updates ts n old (hrec ▸ hd .timeline) hn ho hother))

theorem deleteRecord_preserves (c : Coll) (h : Host) (d : Document) (id : JVal)
    (hd : d.idsDistinct) :
    ∃ d2, (deleteRecord c h id (.stored d)).2 = .stored d2 ∧ d2.idsDistinct := by
  refine cycle_stored_preserves h d _ hd ?_
  intro a d1 hmut
  cases hf : filterColl c (fun r => !strictEq (Record.getProp r "id") id) d with
  | error e => simp [hf, bind, Except.bind] at hmut
  | ok d0 =>
    simp [hf, bind, Except.bind, pure, Except.pure] at hmut
    rw [← hmut.2]
    exact filterColl_preserves c _ d d0 hd hf

theorem deleteCase_preserves (h : Host) (d : Document) (id : JVal) (hd : d.idsDistinct) :
    ∃ d2, (deleteCase h id (.stored d)).2 = .stored d2 ∧ d2.idsDistinct := by
  refine cycle_stored_preserves h d _ hd ?_
  intro a d4 hmut
  cases h1 : filterColl .cases (fun c => !strictEq (Record.getProp c "id") id) d with
  | error e => simp [h1, bind, Except.bind] at hmut
  | ok d1 =>
    cases h2 : filterColl .evidence (fun e => !strictEq (Record.getProp e "caseId") id) d1 with
    | error e => simp [h1, h2, bind, Except.bind] at hmut
    | ok d2 =>
      cases h3 : filterColl .timeline
          (fun t => !strictEq (Record.getProp t "caseId") id) d2 with
      | error e => simp [h1, h2, h3, bind, Except.bind] at hmut
      | ok d3 =>
        cases h4 : filterColl .documents
            (fun x => !strictEq (Record.getProp x "caseId") id) d3 with
        | error e => simp [h1, h2, h3, h4, bind, Except.bind] at hmut
        | ok d5 =>
          simp [h1, h2, h3, h4, bind, Except.bind, pure, Except.pure] at hmut
          rw [← hmut.2]
          exact filterColl_preserves _ _ d3 d5
            (filterColl_preserves _ _ d2 d3
              (filterColl_preserves _ _ d1 d2
                (filterColl_preserves _ _ d d1 hd h1) h2) h3) h4

/-! ## Lemmas for lookups, timestamps and missing collections -/

theorem findRecord_stored (c : Coll) (h : Host) (id : JVal) (d : Document) :
    findRecord c h id (.stored d)
      = (.ok ((d.records c).find? fun r => strictEq (Record.getProp r "id") id),
         .stored d) := by
  simp [findRecord, getColl_stored]

theorem addRecord_absent (c : Coll) (h : Host) (d : Document) (fields : Record)
    (hx : d.coll c = none) :
    addRecord c h fields (.stored d) = (.error .typeError, .stored d) := by
  unfold addRecord
  exact cycle_stored_throw h d _ _ (by simp [hx])

theorem addTimelineEvent_absent (h : Host) (d : Document) (fields : Record)
    (hx : d.timeline = none) :
    addTimelineEvent h fields (.stored d) = (.error .typeError, .stored d) := by
  unfold addTimelineEvent
  exact cycle_stored_throw h d _ _ (by simp [hx])

theorem getProp_newEvent (h : Host) (fields : Record) (k : String)
    (hk : k ≠ "createdAt") :
    Record.getProp (newEvent h fields) k
      = (Record.getProp fields k).or
          (Record.getProp (Record.setProp [] "id" (.str h.generateId)) k) := by
  simp only [newEvent]
  rw [getProp_setProp_ne _ _ _ _ (fun e => hk e.symm), getProp_spread]

theorem getProp_newEvent_createdAt (h : Host) (fields : Record) :
    Record.getProp (newEvent h fields) "createdAt" = some (.str h.isoNow) := by
  simp only [newEvent]
  rw [getProp_setProp_same]

/-! ## Lemmas on saving and on failed writes -/

/-- A cycle that returns a value either did not save or saved the mutated
document, stamped. -/
theorem cycle_ok_cases {α : Type} (h : Host) (b b1 : Backing) (a : α)
    (mutate : Document → Except JsError (α × Option Document))
    (hc : cycle h b mutate = (.ok a, b1)) :
    (∃ data, mutate data = .ok (a, none)) ∨
    (∃ data data1, mutate data = .ok (a, some data1) ∧
      b1 = .stored { data1 with lastUpdated := some (.str h.isoNow) }) := by
  unfold cycle at hc
  cases hg : getData h b with
  | mk res b0 =>
    cases res with
    | error e => simp [hg] at hc
    | ok data =>
      cases hm : mutate data with
      | error e => simp [hg, hm] at hc
      | ok out =>
        obtain ⟨a1, saved⟩ := out
        cases saved with
        | none =>
          simp [hg, hm] at hc
          exact Or.inl ⟨data, by rw [hm, hc.1]⟩
        | some data1 =>
          by_cases hw : h.writeOk = true
          · simp [hg, hm, saveData, hw] at hc
            exact Or.inr ⟨data, data1, by rw [hm, hc.1], hc.2.symm⟩
          · simp [hg, hm, saveData, hw] at hc

theorem cycle_ok_stamped {α : Type} (h : Host) (b b1 : Backing) (a : α)
    (mutate : Document → Except JsError (α × Option Document))
    (hnosave : ∀ data, mutate data ≠ .ok (a, none))
    (hc : cycle h b mutate = (.ok a, b1)) :
    ∃ d1, b1 = .stored d1 ∧ d1.lastUpdated = some (.str (h.toISOString h.clock)) := by
  rcases cycle_ok_cases h b b1 a mutate hc with ⟨data, hm⟩ | ⟨data, data1, _, hb⟩
  · exact absurd hm (hnosave data)
  · exact ⟨_, hb, rfl⟩

theorem getData_write_fails (h : Host) (hw : h.writeOk = false) (b : Backing) :
    getData h b = (match b with
      | .stored d => (.ok d, .stored d)
      | .missing => (.error .writeFailed, .missing)
      | .corrupt => (.error .writeFailed, .corrupt)) := by
  cases b <;> simp [getData, initializeDatabase, readParse, saveData, hw]

theorem cycle_fails_of_write_fails {α : Type} (h : Host) (hw : h.writeOk = false)
    (b : Backing) (mutate : Document → Except JsError (α × Option Document))
    (hnosave : ∀ data a, mutate data ≠ .ok (a, none)) :
    ∃ e, cycle h b mutate = (.error e, b) := by
  unfold cycle
  rw [getData_write_fails h hw b]
  cases b with
  | missing => exact ⟨_, rfl⟩
  | corrupt => exact ⟨_, rfl⟩
  | stored d =>
    cases hm : mutate d with
    | error e => exact ⟨e, by simp [hm]⟩
    | ok out =>
      obtain ⟨a1, saved⟩ := out
      cases saved with
      | none => exact absurd hm (hnosave d a1)
      | some data1 => exact ⟨.writeFailed, by simp [hm, saveData, hw]⟩

theorem cycle_stored_writeFailed {α : Type} (h : Host) (hw : h.writeOk = false)
    (d d1 : Document) (a : α)
    (mutate : Document → Except JsError (α × Option Document))
    (hm : mutate d = .ok (a, some d1)) :
    cycle h (.stored d) mutate = (.error .writeFailed, .stored d) := by
  simp [cycle, getData_stored, hm, saveData, hw]

theorem deleteCase_saves (id : JVal) (data : Document) (a : Bool) :
    (do
      let data ← filterColl .cases (fun c => !strictEq (Record.getProp c "id") id) data
      let data ← filterColl .evidence (fun e => !strictEq (Record.getProp e "caseId") id) data
      let data ← filterColl .timeline (fun t => !strictEq (Record.getProp t "caseId") id) data
      let data ← filterColl .documents (fun x => !strictEq (Record.getProp x "caseId") id) data
      pure (true, some data) : Except JsError (Bool × Option Document))
      ≠ .ok (a, none) := by
  intro hm
  cases h1 : filterColl .cases (fun c => !strictEq (Record.getProp c "id") id) data with
  | error e => simp [h1, bind, Except.bind] at hm
  | ok d1 =>
    cases h2 : filterColl .evidence (fun e => !strictEq (Record.getProp e "caseId") id) d1 with
    | error e => simp [h1, h2, bind, Except.bind] at hm
    | ok d2 =>
      cases h3 : filterColl .timeline
          (fun t => !strictEq (Record.getProp t "caseId") id) d2 with
      | error e => simp [h1, h2, h3, bind, Except.bind] at hm
      | ok d3 =>
        cases h4 : filterColl .documents
            (fun x => !strictEq (Record.getProp x "caseId") id) d3 with
        | error e => simp [h1, h2, h3, h4, bind, Except.bind] at hm
        | ok d4 => simp [h1, h2, h3, h4, bind, Except.bind, pure, Except.pure] at hm

theorem deleteRecord_saves (c : Coll) (id : JVal) (data : Document) (a : Bool) :
    (do
      let data ← filterColl c (fun r => !strictEq (Record.getProp r "id") id) data
      pure (true, some data) : Except JsError (Bool × Option Document))
      ≠ .ok (a, none) := by
  intro hm
  cases h1 : filterColl c (fun r => !strictEq (Record.getProp r "id") id) data with
  | error e => simp [h1, bind, Except.bind] at hm
  | ok d1 => simp [h1, bind, Except.bind, pure, Except.pure] at hm

theorem addRecord_ok_stamped (c : Coll) (h : Host) (fields : Record) (b b1 : Backing)
    (r : Record) (hc : addRecord c h fields b = (.ok r, b1)) :
    ∃ d1, b1 = .stored d1 ∧ d1.lastUpdated = some (.str (h.toISOString h.clock)) := by
  unfold addRecord at hc
  refine cycle_ok_stamped h b b1 r _ ?_ hc
  intro data
  cases hx : data.coll c <;> simp [hx]

theorem addTimelineEvent_ok_stamped (h : Host) (fields : Record) (b b1 : Backing)
    (r : Record) (hc : addTimelineEvent h fields b = (.ok r, b1)) :
    ∃ d1, b1 = .stored d1 ∧ d1.lastUpdated = some (.str (h.toISOString h.clock)) := by
  unfold addTimelineEvent at hc
  refine cycle_ok_stamped h b b1 r _ ?_ hc
  intro data
  cases hx : data.timeline <;> simp [hx]

theorem updateRecord_ok_stamped (c : Coll) (h : Host) (id : JVal) (updates : Record)
    (b b1 : Backing) (r : Record)
    (hc : updateRecord c h id updates b = (.ok (some r), b1)) :
    ∃ d1, b1 = .stored d1 ∧ d1.lastUpdated = some (.str (h.toISOString h.clock)) := by
  unfold updateRecord at hc
  refine cycle_ok_stamped h b b1 (some r) _ ?_ hc
  intro data
  cases hx : data.coll c with
  | none => simp [hx]
  | some xs =>
    cases hn : findIndex (fun r => strictEq (Record.getProp r "id") id) xs <;> simp [hx, hn]

theorem updateTimelineEvent_ok_stamped (h : Host) (id : JVal) (updates : Record)
    (b b1 : Backing) (r : Record)
    (hc : updateTimelineEvent h id updates b = (.ok (some r), b1)) :
    ∃ d1, b1 = .stored d1 ∧ d1.lastUpdated = some (.str (h.toISOString h.clock)) := by
  unfold updateTimelineEvent at hc
  refine cycle_ok_stamped h b b1 (some r) _ ?_ hc
  intro data
  cases hx : data.timeline with
  | none => simp [hx]
  | some ts =>
    cases hn : findIndex (fun r => strictEq (Record.getProp r "id") id) ts <;> simp [hx, hn]

theorem deleteRecord_ok_stamped (c : Coll) (h : Host) (id : JVal) (b b1 : Backing)
    (v : Bool) (hc : deleteRecord c h id b = (.ok v, b1)) :
    ∃ d1, b1 = .stored d1 ∧ d1.lastUpdated = some (.str (h.toISOString h.clock)) := by
  unfold deleteRecord at hc
  exact cycle_ok_stamped h b b1 v _ (fun data => deleteRecord_saves c id data v) hc

theorem deleteCase_ok_stamped (h : Host) (id : JVal) (b b1 : Backing)
    (v : Bool) (hc : deleteCase h id b = (.ok v, b1)) :
    ∃ d1, b1 = .stored d1 ∧ d1.lastUpdated = some (.str (h.toISOString h.clock)) := by
  unfold deleteCase at hc
  exact cycle_ok_stamped h b b1 v _ (fun data => deleteCase_saves id data v) hc

theorem addRecord_write_fails (c : Coll) (h : Host) (hw : h.writeOk = false)
    (fields : Record) (b : Backing) : ∃ e, addRecord c h fields b = (.error e, b) := by
  unfold addRecord
  refine cycle_fails_of_write_fails h hw b _ ?_
  intro data a
  cases hx : data.coll c <;> simp [hx]

theorem addTimelineEvent_write_fails (h : Host) (hw : h.writeOk = false)
    (fields : Record) (b : Backing) : ∃ e, addTimelineEvent h fields b = (.error e, b) := by
  unfold addTimelineEvent
  refine cycle_fails_of_write_fails h hw b _ ?_
  intro data a
  cases hx : data.timeline <;> simp [hx]

theorem deleteRecord_write_fails (c : Coll) (h : Host) (hw : h.writeOk = false)
    (id : JVal) (b : Backing) : ∃ e, deleteRecord c h id b = (.error e, b) := by
  unfold deleteRecord
  exact cycle_fails_of_write_fails h hw b _ (fun data a => deleteRecord_saves c id data a)

theorem deleteCase_write_fails (h : Host) (hw : h.writeOk = false)
    (id : JVal) (b : Backing) : ∃ e, deleteCase h id b = (.error e, b) := by
  unfold deleteCase
  exact cycle_fails_of_write_fails h hw b _ (fun data a => deleteCase_saves id data a)

theorem updateRecord_write_fails (c : Coll) (h : Host) (hw : h.writeOk = false)
    (id : JVal) (updates : Record) (d : Document) (xs : List Record) (n : Nat)
    (hx : d.coll c = some xs)
    (hn : findIndex (fun r => strictEq (Record.getProp r "id") id) xs = some n) :
    updateRecord c h id updates (.stored d) = (.error .writeFailed, .stored d) := by
  unfold updateRecord
  exact cycle_stored_writeFailed h hw d _ _ _ (by simp [hx, hn]; exact ⟨rfl, rfl⟩)

theorem updateTimelineEvent_write_fails (h : Host) (hw : h.writeOk = false)
    (id : JVal) (updates : Record) (d : Document) (ts : List Record) (n : Nat)
    (hx : d.timeline = some ts)
    (hn : findIndex (fun r => strictEq (Record.getProp r "id") id) ts = some n) :
    updateTimelineEvent h id updates (.stored d) = (.error .writeFailed, .stored d) := by
  unfold updateTimelineEvent
  exact cycle_stored_writeFailed h hw d _ _ _ (by simp [hx, hn]; exact ⟨rfl, rfl⟩)

theorem addRecord_writeFailed (c : Coll) (h : Host) (hw : h.writeOk = false)
    (fields : Record) (d : Document) (xs : List Record) (hx : d.coll c = some xs) :
    addRecord c h fields (.stored d) = (.error .writeFailed, .stored d) := by
  unfold addRecord
  exact cycle_stored_writeFailed h hw d _ _ _ (by simp [hx]; exact ⟨rfl, rfl⟩)

theorem addTimelineEvent_writeFailed (h : Host) (hw : h.writeOk = false)
    (fields : Record) (d : Document) (ts : List Record) (hx : d.timeline = some ts) :
    addTimelineEvent h fields (.stored d) = (.error .writeFailed, .stored d) := by
  unfold addTimelineEvent
  exact cycle_stored_writeFailed h hw d _ _ _ (by simp [hx]; exact ⟨rfl, rfl⟩)

/-! ## Lemmas on deletion and the timeline, and on the photo filter -/

/-- The backing a cycle leaves on a stored document holds a document that
satisfies a property of the collections, when the original does and so does
every document the mutation saves. -/
theorem cycle_stored_invariant {α : Type} (P : Document → Prop) (h : Host) (d : Document)
    (mutate : Document → Except JsError (α × Option Document))
    (hstamp : ∀ (d0 : Document) (v : Option JVal),
      P d0 → P ({ d0 with lastUpdated := v } : Document))
    (hd : P d)
    (hm : ∀ a d1, mutate d = .ok (a, some d1) → P d1) :
    ∃ d2, (cycle h (.stored d) mutate).2 = .stored d2 ∧ P d2 := by
  simp only [cycle, getData_stored]
  cases hmut : mutate d with
  | error e => exact ⟨d, rfl, hd⟩
  | ok res =>
    obtain ⟨a, saved⟩ := res
    cases saved with
    | none => exact ⟨d, rfl, hd⟩
    | some d1 =>
      by_cases hw : h.writeOk = true
      · exact ⟨{ d1 with lastUpdated := some (.str h.isoNow) }, by simp [saveData, hw],
          hstamp _ _ (hm a d1 hmut)⟩
      · exact ⟨d, by simp [saveData, hw], hd⟩

theorem filterColl_timeline_sublist (c : Coll) (keep : Record → Bool) (d d1 : Document)
    (ts : List Record) (hd : (d.records .timeline).Sublist ts)
    (hf : filterColl c keep d = .ok d1) : (d1.records .timeline).Sublist ts := by
  unfold filterColl at hf
  cases hc : d.coll c with
  | none => simp [hc] at hf
  | some xs =>
    simp [hc] at hf
    subst hf
    by_cases hct : c = .timeline
    · subst hct
      rw [records_of_coll _ _ _ (coll_setColl_same d .timeline _)]
      rw [records_of_coll d .timeline xs hc] at hd
      exact (List.filter_sublist xs).trans hd
    · simpa [Document.records, coll_setColl_ne d c .timeline _ hct] using hd

theorem dateSorted_of_sublist (h : Host) (xs ys : List Record) (hs : xs.Sublist ys)
    (hy : DateSorted h ys) : DateSorted h xs :=
  List.Pairwise.sublist hs hy

theorem filterPhotoList_strings (filename : String) (photos : List String) :
    filterPhotoList filename (photos.map JVal.str)
      = .ok ((photos.filter fun p => !includes p filename).map JVal.str) := by
  induction photos with
  | nil => rfl
  | cons p rest ih =>
    simp only [List.map_cons, filterPhotoList, keepsPhoto, ih, List.filter_cons]
    cases includes p filename <;> simp

theorem find?_of_findIndex (p : Record → Bool) (xs : List Record) (n : Nat) (x : Record)
    (hn : findIndex p xs = some n) (hx : xs.get? n = some x) : xs.find? p = some x := by
  induction xs generalizing n with
  | nil => simp [findIndex] at hn
  | cons y rest ih =>
    simp only [findIndex] at hn
    by_cases hp : p y = true
    · simp [hp] at hn
      subst hn
      have hy : y = x := by simpa using hx
      subst hy
      simp [hp]
    · cases hr : findIndex p rest with
      | none => simp [hp, hr] at hn
      | some m =>
        simp [hp, hr] at hn
        subst hn
        have hm : rest.get? m = some x := by simpa using hx
        simp [hp, ih m hr hm]

/-! ## Lemmas on serialisation -/

mutual
theorem Parsed.reread_of_finite : ∀ v : Parsed, Parsed.finite v = true → Parsed.reread v = v
  | .null, _ => rfl
  | .bool _, _ => rfl
  | .num _, _ => rfl
  | .infinity _, hf => by simp [Parsed.finite] at hf
  | .str _, _ => rfl
  | .arr xs, hf => by
    simp only [Parsed.finite] at hf
    simp [Parsed.reread, Parsed.rereadList_of_finite xs hf]
  | .obj kvs, hf => by
    simp only [Parsed.finite] at hf
    simp [Parsed.reread, Parsed.rereadFields_of_finite kvs hf]
theorem Parsed.rereadList_of_finite :
    ∀ xs : List Parsed, Parsed.finiteList xs = true → Parsed.rereadList xs = xs
  | [], _ => rfl
  | x :: xs, hf => by
    simp only [Parsed.finiteList, Bool.and_eq_true] at hf
    simp [Parsed.rereadList, Parsed.reread_of_finite x hf.1,
      Parsed.rereadList_of_finite xs hf.2]
theorem Parsed.rereadFields_of_finite :
    ∀ kvs : List (String × Parsed), Parsed.finiteFields kvs = true →
      Parsed.rereadFields kvs = kvs
  | [], _ => rfl
  | (k, x) :: kvs, hf => by
    simp only [Parsed.finiteFields, Bool.and_eq_true] at hf
    simp [Parsed.rereadFields, Parsed.reread_of_finite x hf.1,
      Parsed.rereadFields_of_finite kvs hf.2]
end

theorem Parsed.finiteFields_setField (kvs : List (String × Parsed)) (key : String)
    (v : Parsed) (hk : Parsed.finiteFields kvs = true) (hv : Parsed.finite v = true) :
    Parsed.finiteFields (Parsed.setField kvs key v) = true := by
  induction kvs with
  | nil => simp [Parsed.setField, Parsed.finiteFields, hv]
  | cons p rest ih =>
    obtain ⟨k0, w⟩ := p
    simp only [Parsed.finiteFields, Bool.and_eq_true] at hk
    by_cases hk0 : k0 = key
    · simp [Parsed.setField, hk0, Parsed.finiteFields, hv, hk.2]
    · simp [Parsed.setField, hk0, Parsed.finiteFields, hk.1, ih hk.2]

theorem Parsed.getField_setField_ne (kvs : List (String × Parsed)) (key k1 : String)
    (v : Parsed) (hne : key ≠ k1) :
    Parsed.getField (Parsed.setField kvs key v) k1 = Parsed.getField kvs k1 := by
  induction kvs with
  | nil =>
    have hb : (k1 == key) = false := by simpa using fun e : k1 = key => hne e.symm
    simp [Parsed.setField, Parsed.getField, List.lookup, hb]
  | cons p rest ih =>
    obtain ⟨k0, w⟩ := p
    by_cases hk : k0 = key
    · subst hk
      have hb : (k1 == k0) = false := by simpa using fun e : k1 = k0 => hne e.symm
      simp [Parsed.setField, Parsed.getField, List.lookup, hb]
    · by_cases h1 : k1 = k0
      · subst h1
        simp [Parsed.setField, Parsed.getField, hk]
      · have hb : (k1 == k0) = false := by simpa using h1
        simpa [Parsed.setField, Parsed.getField, hk, List.lookup, hb] using ih

/-! ## Case deletion -/

/-- C1 (cascade completeness).  For every stored document that carries the
collections `deleteCase` filters and every id, with the write succeeding,
`deleteCase(id)` returns `true` and the document it stores holds no case whose
`id` is strictly equal to `id` and no evidence, timeline or document record
whose `caseId` is. -/
theorem deleteCase_cascade_complete (h : Host) (d : Document) (id : JVal)
    (cs es ts ds : List Record)
    (hc : d.cases = some cs) (he : d.evidence = some es)
    (ht : d.timeline = some ts) (hd : d.documents = some ds)
    (hw : h.writeOk = true) :
    ∃ d1, deleteCase h id (.stored d) = (.ok true, .stored d1) ∧
      (∀ c ∈ d1.records .cases, strictEq (c.getProp "id") id = false) ∧
      (∀ r ∈ d1.records .evidence, strictEq (r.getProp "caseId") id = false) ∧
      (∀ r ∈ d1.records .timeline, strictEq (r.getProp "caseId") id = false) ∧
      (∀ r ∈ d1.records .documents, strictEq (r.getProp "caseId") id = false) := by
  refine ⟨_, deleteCase_stored h d id cs es ts ds hc he ht hd hw, ?_, ?_, ?_, ?_⟩ <;>
    simp [Document.records, Document.coll, List.mem_filter]

theorem deleteCase_cascade_complete_witness :
    ∃ d1, deleteCase demoHost (.str "c1") (.stored cascadeDoc) = (.ok true, .stored d1) ∧
      (∀ c ∈ d1.records .cases, strictEq (c.getProp "id") (.str "c1") = false) ∧
      (∀ r ∈ d1.records .evidence, strictEq (r.getProp "caseId") (.str "c1") = false) ∧
      (∀ r ∈ d1.records .timeline, strictEq (r.getProp "caseId") (.str "c1") = false) ∧
      (∀ r ∈ d1.records .documents, strictEq (r.getProp "caseId") (.str "c1") = false) :=
  deleteCase_cascade_complete demoHost cascadeDoc (.str "c1") _ _ _ _ rfl rfl rfl rfl rfl

/-- C2 (nothing else is removed).  For every stored document that carries the
collections `deleteCase` filters and every id, with the write succeeding, the
stored cases are the previous ones without those whose `id` is `id`, the stored
evidence, timeline and documents are the previous ones without the records
whose `caseId` is `id` (the records kept are unchanged and in their previous
order), and suspects, witnesses, vehicles, officers and incidents are as
before. -/
theorem deleteCase_frame (h : Host) (d : Document) (id : JVal)
    (cs es ts ds : List Record)
    (hc : d.cases = some cs) (he : d.evidence = some es)
    (ht : d.timeline = some ts) (hd : d.documents = some ds)
    (hw : h.writeOk = true) :
    ∃ d1, deleteCase h id (.stored d) = (.ok true, .stored d1) ∧
      d1.cases = some (cs.filter fun c => !strictEq (c.getProp "id") id) ∧
      d1.evidence = some (es.filter fun r => !strictEq (r.getProp "caseId") id) ∧
      d1.timeline = some (ts.filter fun r => !strictEq (r.getProp "caseId") id) ∧
      d1.documents = some (ds.filter fun r => !strictEq (r.getProp "caseId") id) ∧
      d1.suspects = d.suspects ∧ d1.witnesses = d.witnesses ∧
      d1.vehicles = d.vehicles ∧ d1.officers = d.officers ∧
      d1.incidents = d.incidents :=
  ⟨_, deleteCase_stored h d id cs es ts ds hc he ht hd hw,
    rfl, rfl, rfl, rfl, rfl, rfl, rfl, rfl, rfl⟩

theorem deleteCase_frame_witness :
    ∃ d1, deleteCase demoHost (.str "c1") (.stored cascadeDoc) = (.ok true, .stored d1) ∧
      d1.cases = some [[("id", .str "c2"), ("title", .str "Harbour fraud")]] ∧
      d1.evidence = some [[("id", .str "e2"), ("caseId", .str "c2")]] ∧
      d1.timeline = some [[("id", .str "t2"), ("caseId", .str "c2"), ("dateTime", .num 20)]] ∧
      d1.documents = some [[("id", .str "d2"), ("caseId", .str "c2")]] ∧
      d1.suspects = cascadeDoc.suspects ∧ d1.witnesses = cascadeDoc.witnesses ∧
      d1.vehicles = cascadeDoc.vehicles ∧ d1.officers = cascadeDoc.officers ∧
      d1.incidents = cascadeDoc.incidents :=
  deleteCase_frame demoHost cascadeDoc (.str "c1") _ _ _ _ rfl rfl rfl rfl rfl

/-- C3, as stated, fails: `ghost` is the id of no case, yet `deleteCase` drops
the evidence record that refers to it. -/
theorem deleteCase_unknown_id_drops_orphans :
    (∀ c ∈ orphanDoc.records .cases, strictEq (c.getProp "id") (.str "ghost") = false) ∧
    deleteCase demoHost (.str "ghost") (.stored orphanDoc)
      = (.ok true, .stored { orphanDoc with
          evidence := some []
          lastUpdated := some (.str demoHost.isoNow) }) ∧
    orphanDoc.evidence ≠ some [] := by
  refine ⟨by decide, rfl, by decide⟩

/-- C3 (amended).  For every stored document that carries the collections
`deleteCase` filters and every id that is the `id` of no case and the `caseId`
of no evidence, timeline or document record, with the write succeeding,
`deleteCase(id)` returns `true` and the stored document differs from the
previous one in `lastUpdated` only: all nine collections are unchanged. -/
theorem deleteCase_unknown_id (h : Host) (d : Document) (id : JVal)
    (cs es ts ds : List Record)
    (hc : d.cases = some cs) (he : d.evidence = some es)
    (ht : d.timeline = some ts) (hd : d.documents = some ds)
    (hw : h.writeOk = true)
    (hid : ∀ c ∈ cs, strictEq (c.getProp "id") id = false)
    (hfk : ∀ r ∈ es ++ ts ++ ds, strictEq (r.getProp "caseId") id = false) :
    deleteCase h id (.stored d)
      = (.ok true, .stored { d with lastUpdated := some (.str h.isoNow) }) := by
  rw [deleteCase_stored h d id cs es ts ds hc he ht hd hw]
  have e1 : cs.filter (fun c => !strictEq (c.getProp "id") id) = cs :=
    List.filter_eq_self.2 fun c hmem => by simp [hid c hmem]
  have e2 : es.filter (fun r => !strictEq (r.getProp "caseId") id) = es :=
    List.filter_eq_self.2 fun r hmem => by simp [hfk r (by simp [hmem])]
  have e3 : ts.filter (fun r => !strictEq (r.getProp "caseId") id) = ts :=
    List.filter_eq_self.2 fun r hmem => by simp [hfk r (by simp [hmem])]
  have e4 : ds.filter (fun r => !strictEq (r.getProp "caseId") id) = ds :=
    List.filter_eq_self.2 fun r hmem => by simp [hfk r (by simp [hmem])]
  rw [e1, e2, e3, e4, ← hc, ← he, ← ht, ← hd]

theorem deleteCase_unknown_id_witness :
    deleteCase demoHost (.str "nonexistent-id") (.stored cascadeDoc)
      = (.ok true, .stored { cascadeDoc with lastUpdated := some (.str demoHost.isoNow) }) :=
  deleteCase_unknown_id demoHost cascadeDoc (.str "nonexistent-id") _ _ _ _
    rfl rfl rfl rfl rfl (by decide) (by decide)

/-! ## Identity and timestamps on add and update -/

/-- C4, as stated, fails: the case `c1` sits at position 0; after
`updateCase("c1", fields)` with a bag naming `id` and `createdAt`, the record
stored at position 0 has the id `other` and the caller's `createdAt`. -/
theorem updateCase_overrides_id_createdAt :
    findIndex (fun c => strictEq (c.getProp "id") (.str "c1")) (oneCaseDoc.records .cases)
      = some 0 ∧
    ((oneCaseDoc.records .cases).get? 0).bind (fun c => c.getProp "createdAt")
      = some (.str "2023-05-05T10:00:00.000Z") ∧
    ∃ d1, (updateCase demoHost (.str "c1") pushyFields (.stored oneCaseDoc)).2 = .stored d1 ∧
      ((d1.records .cases).get? 0).bind (fun c => c.getProp "id") = some (.str "other") ∧
      ((d1.records .cases).get? 0).bind (fun c => c.getProp "createdAt")
        = some (.str "2000-01-01") :=
  ⟨by decide, by decide, _, rfl, by decide, by decide⟩

/-- C4 (amended).  For every stored document whose cases hold a record with
id `id` (the first at position `n`) and every field bag, with the write
succeeding, `updateCase(id, fields)` returns and stores at position `n` a
record whose `id` is the bag's `id` when the bag has that key and the previous
`id` otherwise, and whose `createdAt` is the bag's `createdAt` when the bag has
that key and the previous `createdAt` otherwise. -/
theorem updateCase_id_createdAt (h : Host) (d : Document) (id : JVal) (updates : Record)
    (cs : List Record) (n : Nat)
    (hc : d.cases = some cs)
    (hn : findIndex (fun c => strictEq (c.getProp "id") id) cs = some n)
    (hw : h.writeOk = true) :
    ∃ (old r : Record) (d1 : Document), cs.get? n = some old ∧ strictEq (old.getProp "id") id = true ∧
      updateCase h id updates (.stored d) = (.ok (some r), .stored d1) ∧
      d1.cases = some (cs.set n r) ∧ (cs.set n r).get? n = some r ∧
      r.getProp "id" = (updates.getProp "id").or (old.getProp "id") ∧
      r.getProp "createdAt" = (updates.getProp "createdAt").or (old.getProp "createdAt") := by
  obtain ⟨old, ho, hp⟩ := findIndex_sat _ _ _ hn
  have hlt := findIndex_lt _ _ _ hn
  refine ⟨old, _, _, ho, hp,
    updateRecord_stored .cases h d id updates cs n old hc hn ho hw, rfl, ?_, ?_, ?_⟩
  · simp [List.get?_eq_getElem?, List.getElem?_set, hlt]
  · exact getProp_mergedRecord h old updates "id" (by decide)
  · exact getProp_mergedRecord h old updates "createdAt" (by decide)

theorem updateCase_id_createdAt_witness :
    ∃ (old r : Record) (d1 : Document), twoCases.get? 0 = some old ∧
      strictEq (old.getProp "id") (.str "c1") = true ∧
      updateCase demoHost (.str "c1") [("title", .str "Renamed")] (.stored cascadeDoc)
        = (.ok (some r), .stored d1) ∧
      d1.cases = some (twoCases.set 0 r) ∧ (twoCases.set 0 r).get? 0 = some r ∧
      r.getProp "id"
        = (Record.getProp [("title", .str "Renamed")] "id").or (old.getProp "id") ∧
      r.getProp "createdAt"
        = (Record.getProp [("title", .str "Renamed")] "createdAt").or
            (old.getProp "createdAt") :=
  updateCase_id_createdAt demoHost cascadeDoc (.str "c1") [("title", .str "Renamed")]
    twoCases 0 rfl (by decide) rfl

/-- C5, as stated, fails: `addCase` with a bag naming `id` returns and stores
a record whose id is the caller's `other`, not the token of `generateId`. -/
theorem addCase_caller_id_wins :
    ∃ r d1, addCase demoHost pushyFields (.stored blankDoc) = (.ok r, .stored d1) ∧
      d1.cases = some [r] ∧
      r.getProp "id" = some (.str "other") ∧
      (JVal.str "other") ≠ .str demoHost.generateId :=
  ⟨_, _, rfl, rfl, by decide, by decide⟩

/-- C5 (amended).  For each of the nine add operations, every stored document
that has the collection and every field bag, with the write succeeding, the
record returned is stored in the collection and its id is the token of
`generateId` when the bag has no `id` key, and the bag's `id` value when it
has one. -/
theorem add_id (p : Coll × (Host → Record → Backing → Outcome Record))
    (hp : p ∈ addOperations) (h : Host) (d : Document) (fields : Record)
    (xs : List Record) (hx : d.coll p.1 = some xs) (hw : h.writeOk = true) :
    ∃ r d1, p.2 h fields (.stored d) = (.ok r, .stored d1) ∧
      r ∈ d1.records p.1 ∧
      r.getProp "id" = some ((fields.getProp "id").getD (.str h.generateId)) := by
  have generic : ∀ c : Coll, d.coll c = some xs →
      ∃ r d1, addRecord c h fields (.stored d) = (.ok r, .stored d1) ∧
        r ∈ d1.records c ∧
        r.getProp "id" = some ((fields.getProp "id").getD (.str h.generateId)) := by
    intro c hc
    refine ⟨_, _, addRecord_stored c h d fields xs hc hw, ?_, getProp_newRecord_id h fields⟩
    simp [Document.records, coll_stamp, coll_setColl_same]
  simp only [addOperations, List.mem_cons, List.mem_singleton, List.not_mem_nil, or_false] at hp
  rcases hp with rfl | rfl | rfl | rfl | rfl | rfl | rfl | rfl | rfl
  · exact generic .cases hx
  · exact generic .evidence hx
  · exact generic .suspects hx
  · exact generic .witnesses hx
  · refine ⟨_, _, addTimelineEvent_stored h d fields xs hx hw, ?_, getProp_newEvent_id h fields⟩
    simp [Document.records, coll_stamp, coll_setColl_same, sortTimeline,
      List.mem_insertionSort]
  · exact generic .documents hx
  · exact generic .vehicles hx
  · exact generic .incidents hx
  · exact generic .officers hx

theorem add_id_witness :
    ∃ r d1, addCase demoHost [("title", .str "Warehouse theft")] (.stored blankDoc)
        = (.ok r, .stored d1) ∧
      r ∈ d1.records .cases ∧
      r.getProp "id"
        = some ((Record.getProp [("title", .str "Warehouse theft")] "id").getD
            (.str demoHost.generateId)) :=
  add_id (.cases, addCase) (by simp [addOperations]) demoHost blankDoc
    [("title", .str "Warehouse theft")] [] rfl rfl

/-- C6 (creation timestamps).  For every stored document that has the cases
collection, every clock value and every field bag, with the write succeeding,
the record `addCase` returns has `createdAt` and `updatedAt` equal to the ISO
rendering of the clock value, whatever the bag holds under those keys. -/
theorem addCase_timestamps (h : Host) (d : Document) (fields : Record)
    (cs : List Record) (hc : d.cases = some cs) (hw : h.writeOk = true) :
    ∃ r d1, addCase h fields (.stored d) = (.ok r, .stored d1) ∧
      r.getProp "createdAt" = some (.str (h.toISOString h.clock)) ∧
      r.getProp "updatedAt" = some (.str (h.toISOString h.clock)) :=
  ⟨_, _, addRecord_stored .cases h d fields cs hc hw,
    (getProp_newRecord_stamps h fields).1, (getProp_newRecord_stamps h fields).2⟩

theorem addCase_timestamps_witness :
    ∃ r d1, addCase demoHost pushyFields (.stored blankDoc) = (.ok r, .stored d1) ∧
      r.getProp "createdAt" = some (.str (demoHost.toISOString demoHost.clock)) ∧
      r.getProp "updatedAt" = some (.str (demoHost.toISOString demoHost.clock)) :=
  addCase_timestamps demoHost blankDoc pushyFields [] rfl rfl

/-! ## Timeline ordering -/

/-- C7 (timeline ordering).  For every stored timeline, sorted or not, with the
write succeeding: when the dates of the stored events and of the new event all
parse, the timeline stored by `addTimelineEvent` is a permutation of the
previous events with the new one and is in non-decreasing order of parsed
`dateTime`; and when an event with id `id` is found and the dates of the events
after the merge all parse, the timeline stored by `updateTimelineEvent` is a
permutation of the events after the merge and is in non-decreasing order of
parsed `dateTime`. -/
theorem timeline_sorted_after_add_update (h : Host) (d : Document) (ts : List Record)
    (ht : d.timeline = some ts) (hw : h.writeOk = true) :
    (∀ fields : Record,
      (∀ r ∈ ts ++ [newEvent h fields], (dateOf h r).isSome = true) →
      ∃ d1 ts1, addTimelineEvent h fields (.stored d)
          = (.ok (newEvent h fields), .stored d1) ∧
        d1.timeline = some ts1 ∧
        ts1.Perm (ts ++ [newEvent h fields]) ∧ DateSorted h ts1) ∧
    (∀ (id : JVal) (updates : Record) (n : Nat) (old : Record),
      findIndex (fun t => strictEq (t.getProp "id") id) ts = some n →
      ts.get? n = some old →
      (∀ r ∈ ts.set n (mergedRecord h (some old) updates), (dateOf h r).isSome = true) →
      ∃ ret d1 ts1, updateTimelineEvent h id updates (.stored d) = (.ok ret, .stored d1) ∧
        d1.timeline = some ts1 ∧
        ts1.Perm (ts.set n (mergedRecord h (some old) updates)) ∧ DateSorted h ts1) := by
  constructor
  · intro fields hv
    exact ⟨_, _, addTimelineEvent_stored h d fields ts ht hw, rfl,
      perm_sortTimeline h _, dateSorted_sortTimeline h _ hv⟩
  · intro id updates n old hn ho hv
    exact ⟨_, _, _, updateTimelineEvent_stored h d id updates ts n old ht hn ho hw, rfl,
      perm_sortTimeline h _, dateSorted_sortTimeline h _ hv⟩

theorem timeline_sorted_after_add_update_witness :
    (∃ d1 ts1, addTimelineEvent demoHost [("dateTime", .num 20)] (.stored unsortedDoc)
        = (.ok (newEvent demoHost [("dateTime", .num 20)]), .stored d1) ∧
      d1.timeline = some ts1 ∧
      ts1.Perm (unsortedTimeline ++ [newEvent demoHost [("dateTime", .num 20)]]) ∧
      DateSorted demoHost ts1) ∧
    (∃ ret d1 ts1, updateTimelineEvent demoHost (.str "t10") [("dateTime", .num 40)]
        (.stored unsortedDoc) = (.ok ret, .stored d1) ∧
      d1.timeline = some ts1 ∧
      ts1.Perm (unsortedTimeline.set 1
        (mergedRecord demoHost (some [("id", .str "t10"), ("dateTime", .num 10)])
          [("dateTime", .num 40)])) ∧
      DateSorted demoHost ts1) :=
  ⟨(timeline_sorted_after_add_update demoHost unsortedDoc unsortedTimeline rfl rfl).1
      [("dateTime", .num 20)] (by decide),
   (timeline_sorted_after_add_update demoHost unsortedDoc unsortedTimeline rfl rfl).2
      (.str "t10") [("dateTime", .num 40)] 1 _ (by decide) rfl (by decide)⟩

/-- C8 (stable ties).  For every stored timeline and new event whose dates all
parse, with the write succeeding, the timeline stored by `addTimelineEvent` is
in non-decreasing order of date and, for every time value, lists the records
of that date in the order they had before the sort; in particular the records
of the new event's date are the previous ones of that date, in their order,
followed by the new event. -/
theorem timeline_sort_stable (h : Host) (d : Document) (ts : List Record) (fields : Record)
    (ht : d.timeline = some ts) (hw : h.writeOk = true)
    (hv : ∀ r ∈ ts ++ [newEvent h fields], (dateOf h r).isSome = true) :
    ∃ d1 ts1, addTimelineEvent h fields (.stored d) = (.ok (newEvent h fields), .stored d1) ∧
      d1.timeline = some ts1 ∧ DateSorted h ts1 ∧
      (∀ t : Int, ts1.filter (fun r => dateOf h r == some t)
        = (ts ++ [newEvent h fields]).filter (fun r => dateOf h r == some t)) ∧
      ts1.filter (fun r => dateOf h r == dateOf h (newEvent h fields))
        = ts.filter (fun r => dateOf h r == dateOf h (newEvent h fields))
            ++ [newEvent h fields] := by
  refine ⟨_, _, addTimelineEvent_stored h d fields ts ht hw, rfl,
    dateSorted_sortTimeline h _ hv, fun t => filter_sortTimeline h t _, ?_⟩
  obtain ⟨t, hnew⟩ := Option.isSome_iff_exists.1 (hv (newEvent h fields) (by simp))
  rw [hnew, filter_sortTimeline, List.filter_append]
  simp [hnew]

theorem timeline_sort_stable_witness :
    ∃ d1 ts1, addTimelineEvent demoHost [("dateTime", .num 10)] (.stored tiedDoc)
        = (.ok (newEvent demoHost [("dateTime", .num 10)]), .stored d1) ∧
      d1.timeline = some ts1 ∧ DateSorted demoHost ts1 ∧
      (∀ t : Int, ts1.filter (fun r => dateOf demoHost r == some t)
        = (tiedTimeline ++ [newEvent demoHost [("dateTime", .num 10)]]).filter
            (fun r => dateOf demoHost r == some t)) ∧
      ts1.filter (fun r => dateOf demoHost r
            == dateOf demoHost (newEvent demoHost [("dateTime", .num 10)]))
        = tiedTimeline.filter (fun r => dateOf demoHost r
            == dateOf demoHost (newEvent demoHost [("dateTime", .num 10)]))
            ++ [newEvent demoHost [("dateTime", .num 10)]] :=
  timeline_sort_stable demoHost tiedDoc tiedTimeline [("dateTime", .num 10)] rfl rfl
    (by decide)

/-- C9, on the code: the event `t1` is found at index 0; `updateTimelineEvent`
with a bag whose only key is `dateTime`, of value 30, moves `t1` behind `t2` in
the re-sort and returns the record now at index 0, which is `t2`, not the event
it modified. -/
theorem updateTimelineEvent_returns_stale_index :
    findIndex (fun t => strictEq (t.getProp "id") (.str "t1")) (cascadeDoc.records .timeline)
      = some 0 ∧
    updateTimelineEvent demoHost (.str "t1") [("dateTime", .num 30)] (.stored cascadeDoc)
      = (.ok (some [("id", .str "t2"), ("caseId", .str "c2"), ("dateTime", .num 20)]),
         .stored { cascadeDoc with
           timeline := some
             [[("id", .str "t2"), ("caseId", .str "c2"), ("dateTime", .num 20)],
              [("id", .str "t1"), ("caseId", .str "c1"), ("dateTime", .num 30),
               ("updatedAt", .str demoHost.isoNow)]]
           lastUpdated := some (.str demoHost.isoNow) }) :=
  ⟨by decide, rfl⟩

/-! ## Search over vehicles -/

/-- C10, on the code: the stored vehicle of plate `ABC123` matches the query
`abc` without regard to case, and `search("abc")` throws a `TypeError`
instead of returning the vehicle under `vehicles`; the backing is untouched. -/
theorem search_vehicle_match_throws :
    matchesSearch demoHost [("id", .str "v1"), ("plate", .str "ABC123"), ("make", .str "Ford")]
        (demoHost.toLowerCase "abc") vehicleFields = true ∧
    search demoHost "abc" (.stored vehicleDoc) = (.error .typeError, .stored vehicleDoc) :=
  ⟨by decide, rfl⟩

/-- C11, on the code: no record of the stored document matches the query
`zz-no-match` (its one vehicle included); `search` returns an empty array under
`cases`, `evidence`, `suspects`, `witnesses`, `timeline` and `documents`, and
the object it returns has no `vehicles` key. -/
theorem search_no_match_omits_vehicles :
    vehicleDoc.records .vehicles
      = [[("id", .str "v1"), ("plate", .str "ABC123"), ("make", .str "Ford")]] ∧
    search demoHost "zz-no-match" (.stored vehicleDoc)
      = (.ok { cases := some [], evidence := some [], suspects := some [],
               witnesses := some [], timeline := some [], documents := some [],
               vehicles := none },
         .stored vehicleDoc) :=
  ⟨rfl, rfl⟩

/-- C12 (search correctness).  For every stored document whose vehicles
collection holds no record and every non-empty query, on a host whose
lower-casing maps the empty string, and no other, to the empty string,
`search` returns a result whose `cases`, `evidence`, `suspects`, `witnesses`,
`timeline` and `documents` are the stored collections filtered, in stored
order, to the records that match in the words of the specification. -/
theorem search_matches_spec (h : Host) (d : Document) (q : String)
    (hveh : d.records .vehicles = []) (hq : q ≠ "")
    (hlow : ∀ s : String, h.toLowerCase s = "" ↔ s = "") :
    ∃ res, search h q (.stored d) = (.ok res, .stored d) ∧
      res.cases = some ((d.records .cases).filter fun r =>
        specMatches h r q (searchFields .cases)) ∧
      res.evidence = some ((d.records .evidence).filter fun r =>
        specMatches h r q (searchFields .evidence)) ∧
      res.suspects = some ((d.records .suspects).filter fun r =>
        specMatches h r q (searchFields .suspects)) ∧
      res.witnesses = some ((d.records .witnesses).filter fun r =>
        specMatches h r q (searchFields .witnesses)) ∧
      res.timeline = some ((d.records .timeline).filter fun r =>
        specMatches h r q (searchFields .timeline)) ∧
      res.documents = some ((d.records .documents).filter fun r =>
        specMatches h r q (searchFields .documents)) := by
  have hcongr : ∀ fields : List String,
      (fun r => matchesSearch h r (h.toLowerCase q) fields)
        = fun r => specMatches h r q fields := fun fields =>
    funext fun r => matchesSearch_eq_specMatches h r q fields hq hlow
  refine ⟨_, search_stored_of_no_vehicle_match h d q (by simp [hveh]), ?_, ?_, ?_, ?_, ?_, ?_⟩ <;>
    simp only [hcongr]

theorem search_matches_spec_witness :
    ∃ res, search demoHost "WAREHOUSE" (.stored cascadeDoc) = (.ok res, .stored cascadeDoc) ∧
      res.cases = some [[("id", .str "c1"), ("title", .str "Warehouse theft")]] ∧
      res.evidence = some [] ∧ res.suspects = some [] ∧ res.witnesses = some [] ∧
      res.timeline = some [] ∧ res.documents = some [] :=
  search_matches_spec demoHost cascadeDoc "WAREHOUSE" rfl (by decide)
    demoHost_toLowerCase_empty

/-! ## Corruption recovery -/

/-- C13, on the code: on a backing that cannot be read or parsed, with the
write succeeding, `getData` returns a document without raising, the backing
then holds that document and a following `getData`, at a later clock value,
parses it and returns the same document; its `cases`, `evidence`, `suspects`,
`witnesses`, `timeline` and `documents` are empty sequences, but `vehicles`,
`officers` and `incidents` are not: the document has no such keys. -/
theorem recovery_returns_partial_document :
    getData demoHost .corrupt = (.ok recoveredDoc, .stored recoveredDoc) ∧
    getData { demoHost with clock := 1700000000001 } (.stored recoveredDoc)
      = (.ok recoveredDoc, .stored recoveredDoc) ∧
    recoveredDoc.cases = some [] ∧ recoveredDoc.evidence = some [] ∧
    recoveredDoc.suspects = some [] ∧ recoveredDoc.witnesses = some [] ∧
    recoveredDoc.timeline = some [] ∧ recoveredDoc.documents = some [] ∧
    recoveredDoc.vehicles ≠ some [] ∧ recoveredDoc.officers ≠ some [] ∧
    recoveredDoc.incidents ≠ some [] :=
  ⟨rfl, rfl, rfl, rfl, rfl, rfl, rfl, rfl, by decide, by decide, by decide⟩

/-- C14, on the code: the document `getData` writes on a backing it cannot
parse has no `vehicles`, `officers` or `incidents` key, while the document
written when there is no file has all nine collections as empty sequences. -/
theorem recovery_document_lacks_collections :
    getData demoHost .corrupt = (.ok recoveredDoc, .stored recoveredDoc) ∧
    recoveredDoc.vehicles = none ∧ recoveredDoc.officers = none ∧
    recoveredDoc.incidents = none ∧
    getData demoHost .missing = (.ok (initialData demoHost), .stored (initialData demoHost)) ∧
    (∀ c, (initialData demoHost).coll c = some []) :=
  ⟨rfl, rfl, rfl, rfl, rfl, fun c => by cases c <;> rfl⟩

/-! ## Getters -/

/-- C20 (list tolerates a partially-shaped document).  For each of the nine
getters and every stored document, the getter returns without raising the
sequence stored under its key when the key is present and the empty sequence
when the key is absent, and leaves the backing as it was. -/
theorem getters_tolerate_absent (p : Coll × (Host → Backing → Outcome (List Record)))
    (hp : p ∈ getOperations) (h : Host) (d : Document) :
    p.2 h (.stored d)
      = (.ok (match d.coll p.1 with
              | some xs => xs
              | none => []), .stored d) := by
  have generic : ∀ c : Coll, getColl c h (.stored d)
      = (.ok (match d.coll c with
              | some xs => xs
              | none => []), .stored d) := by
    intro c
    rw [getColl_stored, Document.records]
    cases d.coll c <;> rfl
  simp only [getOperations, List.mem_cons, List.mem_singleton, List.not_mem_nil, or_false] at hp
  rcases hp with rfl | rfl | rfl | rfl | rfl | rfl | rfl | rfl | rfl <;> exact generic _

theorem getters_tolerate_absent_witness :
    getVehicles demoHost (.stored recoveredDoc) = (.ok [], .stored recoveredDoc) ∧
    getCases demoHost (.stored cascadeDoc) = (.ok twoCases, .stored cascadeDoc) :=
  ⟨getters_tolerate_absent (.vehicles, getVehicles) (by simp [getOperations]) demoHost
      recoveredDoc,
   getters_tolerate_absent (.cases, getCases) (by simp [getOperations]) demoHost cascadeDoc⟩

/-! ## Update, add and delete by id -/

/-- C15, on the code: the document the store writes when it recovers from a
corrupt backing has no vehicles collection, so no record of it has the id
`v9`; yet `updateVehicle` on it throws a `TypeError` instead of returning
`null`. -/
theorem updateVehicle_after_recovery_throws :
    getData demoHost .corrupt = (.ok recoveredDoc, .stored recoveredDoc) ∧
    recoveredDoc.records .vehicles = [] ∧
    updateVehicle demoHost (.str "v9") [("color", .str "red")] (.stored recoveredDoc)
      = (.error .typeError, .stored recoveredDoc) :=
  ⟨rfl, rfl, rfl⟩

/-- Where the collection is present, an unknown id is a not-found result: for
each of the eight update operations, every stored document that has the
collection and every id that is the `id` of no record of it, the operation
returns `null` without raising and without saving: the backing holds the same
document, `lastUpdated` included, whether or not a write would succeed. -/
theorem update_unknown_id
    (p : Coll × (Host → JVal → Record → Backing → Outcome (Option Record)))
    (hp : p ∈ updateOperations) (h : Host) (d : Document) (id : JVal) (updates : Record)
    (xs : List Record) (hx : d.coll p.1 = some xs)
    (hid : ∀ r ∈ xs, strictEq (r.getProp "id") id = false) :
    p.2 h id updates (.stored d) = (.ok none, .stored d) := by
  simp only [updateOperations, List.mem_cons, List.mem_singleton, List.not_mem_nil,
    or_false] at hp
  rcases hp with rfl | rfl | rfl | rfl | rfl | rfl | rfl | rfl
  · exact updateRecord_not_found .cases h d id updates xs hx hid
  · exact updateRecord_not_found .evidence h d id updates xs hx hid
  · exact updateRecord_not_found .suspects h d id updates xs hx hid
  · exact updateRecord_not_found .witnesses h d id updates xs hx hid
  · exact updateTimelineEvent_not_found h d id updates xs hx hid
  · exact updateRecord_not_found .documents h d id updates xs hx hid
  · exact updateRecord_not_found .vehicles h d id updates xs hx hid
  · exact updateRecord_not_found .incidents h d id updates xs hx hid

theorem update_unknown_id_witness :
    updateCase { demoHost with writeOk := false } (.str "nonexistent-id")
        [("title", .str "Renamed")] (.stored cascadeDoc)
      = (.ok none, .stored cascadeDoc) :=
  update_unknown_id (.cases, updateCase) (by simp [updateOperations])
    { demoHost with writeOk := false } cascadeDoc (.str "nonexistent-id")
    [("title", .str "Renamed")] twoCases rfl (by decide)

/-- C16 (update is a shallow merge).  For every stored document whose cases
hold a record with id `id`, the first at position `n`, every clock value and
every field bag, with the write succeeding, `updateCase` stores at position
`n` a record that has the bag's value under every key of the bag other than
`updatedAt`, the previous value under every key the bag lacks other than
`updatedAt`, and the ISO rendering of the clock under `updatedAt`; the cases
keep their length and every other position its record; every other collection
is unchanged. -/
theorem updateCase_shallow_merge (h : Host) (d : Document) (id : JVal) (updates : Record)
    (cs : List Record) (n : Nat)
    (hc : d.cases = some cs)
    (hn : findIndex (fun c => strictEq (c.getProp "id") id) cs = some n)
    (hw : h.writeOk = true) :
    ∃ (old r : Record) (d1 : Document), cs.get? n = some old ∧
      updateCase h id updates (.stored d) = (.ok (some r), .stored d1) ∧
      d1.cases = some (cs.set n r) ∧
      (cs.set n r).length = cs.length ∧ (cs.set n r).get? n = some r ∧
      (∀ m, m ≠ n → (cs.set n r).get? m = cs.get? m) ∧
      (∀ k v, k ≠ "updatedAt" → updates.getProp k = some v → r.getProp k = some v) ∧
      (∀ k, k ≠ "updatedAt" → updates.getProp k = none → r.getProp k = old.getProp k) ∧
      r.getProp "updatedAt" = some (.str (h.toISOString h.clock)) ∧
      (∀ c, c ≠ Coll.cases → d1.coll c = d.coll c) := by
  obtain ⟨old, ho, _⟩ := findIndex_sat _ _ _ hn
  have hlt := findIndex_lt _ _ _ hn
  refine ⟨old, _, _, ho,
    updateRecord_stored .cases h d id updates cs n old hc hn ho hw, rfl, ?_, ?_, ?_, ?_, ?_,
    getProp_mergedRecord_updatedAt h _ updates, ?_⟩
  · simp
  · simp [List.get?_eq_getElem?, List.getElem?_set, hlt]
  · intro m hm
    simp [List.get?_eq_getElem?, List.getElem?_set, Ne.symm hm]
  · intro k v hk hv
    rw [getProp_mergedRecord h old updates k hk, hv]
    rfl
  · intro k hk hv
    rw [getProp_mergedRecord h old updates k hk, hv]
    rfl
  · intro c hcne
    rw [coll_stamp, coll_setColl_ne _ _ _ _ (Ne.symm hcne)]

theorem updateCase_shallow_merge_witness :
    ∃ (old r : Record) (d1 : Document), twoCases.get? 1 = some old ∧
      updateCase demoHost (.str "c2") pushyFields (.stored cascadeDoc)
        = (.ok (some r), .stored d1) ∧
      d1.cases = some (twoCases.set 1 r) ∧
      (twoCases.set 1 r).length = twoCases.length ∧ (twoCases.set 1 r).get? 1 = some r ∧
      (∀ m, m ≠ 1 → (twoCases.set 1 r).get? m = twoCases.get? m) ∧
      (∀ k v, k ≠ "updatedAt" → Record.getProp pushyFields k = some v →
        r.getProp k = some v) ∧
      (∀ k, k ≠ "updatedAt" → Record.getProp pushyFields k = none →
        r.getProp k = old.getProp k) ∧
      r.getProp "updatedAt" = some (.str (demoHost.toISOString demoHost.clock)) ∧
      (∀ c, c ≠ Coll.cases → d1.coll c = cascadeDoc.coll c) :=
  updateCase_shallow_merge demoHost cascadeDoc (.str "c2") pushyFields twoCases 1
    rfl (by decide) rfl

/-- C17 (add appends).  For each add operation other than `addTimelineEvent`,
every stored document that has the collection and every field bag, with the
write succeeding, the operation stores the previous collection with one record
appended at the end, leaves every other collection unchanged, and returns that
record, which has the caller's value under every key of the bag other than
`createdAt` and `updatedAt`. -/
theorem add_appends (p : Coll × (Host → Record → Backing → Outcome Record))
    (hp : p ∈ plainAddOperations) (h : Host) (d : Document) (fields : Record)
    (xs : List Record) (hx : d.coll p.1 = some xs) (hw : h.writeOk = true) :
    ∃ (r : Record) (d1 : Document), p.2 h fields (.stored d) = (.ok r, .stored d1) ∧
      d1.coll p.1 = some (xs ++ [r]) ∧
      (∀ c, c ≠ p.1 → d1.coll c = d.coll c) ∧
      (∀ k v, k ≠ "createdAt" → k ≠ "updatedAt" → fields.getProp k = some v →
        r.getProp k = some v) := by
  have generic : ∀ c : Coll, d.coll c = some xs →
      ∃ (r : Record) (d1 : Document), addRecord c h fields (.stored d) = (.ok r, .stored d1) ∧
        d1.coll c = some (xs ++ [r]) ∧
        (∀ c1, c1 ≠ c → d1.coll c1 = d.coll c1) ∧
        (∀ k v, k ≠ "createdAt" → k ≠ "updatedAt" → fields.getProp k = some v →
          r.getProp k = some v) := by
    intro c hc
    refine ⟨_, _, addRecord_stored c h d fields xs hc hw, ?_, ?_, ?_⟩
    · rw [coll_stamp, coll_setColl_same]
    · intro c1 hne
      rw [coll_stamp, coll_setColl_ne _ _ _ _ (Ne.symm hne)]
    · intro k v hk1 hk2 hv
      exact getProp_newRecord_field h fields k v hk1 hk2 hv
  simp only [plainAddOperations, List.mem_cons, List.mem_singleton, List.not_mem_nil,
    or_false] at hp
  rcases hp with rfl | rfl | rfl | rfl | rfl | rfl | rfl | rfl <;> exact generic _ hx

theorem add_appends_witness :
    ∃ (r : Record) (d1 : Document),
      addCase demoHost [("title", .str "Dock arson")] (.stored cascadeDoc)
        = (.ok r, .stored d1) ∧
      d1.coll .cases = some (twoCases ++ [r]) ∧
      (∀ c, c ≠ Coll.cases → d1.coll c = cascadeDoc.coll c) ∧
      (∀ k v, k ≠ "createdAt" → k ≠ "updatedAt" →
        Record.getProp [("title", .str "Dock arson")] k = some v → r.getProp k = some v) :=
  add_appends (.cases, addCase) (by simp [plainAddOperations]) demoHost cascadeDoc
    [("title", .str "Dock arson")] twoCases rfl rfl

/-- C18, on the code: on the document the store writes when it recovers from
a corrupt backing, which has no vehicles collection, `deleteVehicle` throws a
`TypeError` instead of returning `true`. -/
theorem deleteVehicle_after_recovery_throws :
    getData demoHost .corrupt = (.ok recoveredDoc, .stored recoveredDoc) ∧
    recoveredDoc.vehicles = none ∧
    deleteVehicle demoHost (.str "v9") (.stored recoveredDoc)
      = (.error .typeError, .stored recoveredDoc) :=
  ⟨rfl, rfl, rfl⟩

/-- Where the collection is present, delete by id does what it says: for each
delete operation other than `deleteCase`, every stored document that has the
collection and every id, with the write succeeding, the operation returns
`true`; the stored collection is the previous one without the records whose
`id` is `id`, the others in their previous order; every other collection is
unchanged; and when no record has that id the collection is unchanged. -/
theorem delete_by_id (p : Coll × (Host → JVal → Backing → Outcome Bool))
    (hp : p ∈ deleteRecordOperations) (h : Host) (d : Document) (id : JVal)
    (xs : List Record) (hx : d.coll p.1 = some xs) (hw : h.writeOk = true) :
    ∃ d1, p.2 h id (.stored d) = (.ok true, .stored d1) ∧
      d1.coll p.1 = some (xs.filter fun r => !strictEq (r.getProp "id") id) ∧
      (∀ c, c ≠ p.1 → d1.coll c = d.coll c) ∧
      ((∀ r ∈ xs, strictEq (r.getProp "id") id = false) → d1.coll p.1 = some xs) := by
  have generic : ∀ c : Coll, d.coll c = some xs →
      ∃ d1, deleteRecord c h id (.stored d) = (.ok true, .stored d1) ∧
        d1.coll c = some (xs.filter fun r => !strictEq (r.getProp "id") id) ∧
        (∀ c1, c1 ≠ c → d1.coll c1 = d.coll c1) ∧
        ((∀ r ∈ xs, strictEq (r.getProp "id") id = false) → d1.coll c = some xs) := by
    intro c hc
    refine ⟨_, deleteRecord_stored c h d id xs hc hw, ?_, ?_, ?_⟩
    · rw [coll_stamp, coll_setColl_same]
    · intro c1 hne
      rw [coll_stamp, coll_setColl_ne _ _ _ _ (Ne.symm hne)]
    · intro hid
      rw [coll_stamp, coll_setColl_same]
      congr 1
      exact List.filter_eq_self.2 fun r hr => by simp [hid r hr]
  simp only [deleteRecordOperations, List.mem_cons, List.mem_singleton, List.not_mem_nil,
    or_false] at hp
  rcases hp with rfl | rfl | rfl | rfl | rfl | rfl | rfl <;> exact generic _ hx

theorem delete_by_id_witness :
    ∃ d1, deleteEvidence demoHost (.str "e1") (.stored cascadeDoc) = (.ok true, .stored d1) ∧
      d1.coll .evidence = some [[("id", .str "e2"), ("caseId", .str "c2")]] ∧
      (∀ c, c ≠ Coll.evidence → d1.coll c = cascadeDoc.coll c) ∧
      ((∀ r ∈ [([("id", .str "e1"), ("caseId", .str "c1")] : Record),
            [("id", .str "e2"), ("caseId", .str "c2")]],
          strictEq (Record.getProp r "id") (.str "e1") = false) →
        d1.coll .evidence
          = some [[("id", .str "e1"), ("caseId", .str "c1")],
                  [("id", .str "e2"), ("caseId", .str "c2")]]) :=
  delete_by_id (.evidence, deleteEvidence) (by simp [deleteRecordOperations]) demoHost
    cascadeDoc (.str "e1") _ rfl rfl

/-! ## Identifier uniqueness -/

/-- C19, as stated, fails: the ids of each collection of the stored document
are pairwise different and the token of `generateId` is not among the case
ids; after `addCase` with a bag naming the id `c1`, two cases have the id
`c1`, and after `updateCase` of `c2` with that bag, likewise. -/
theorem caller_id_breaks_uniqueness :
    cascadeDoc.idsDistinct ∧
    (∀ r ∈ cascadeDoc.records .cases,
      Record.getProp r "id" ≠ some (.str demoHost.generateId)) ∧
    (∃ d1, (addCase demoHost [("id", .str "c1")] (.stored cascadeDoc)).2 = .stored d1 ∧
      ¬ IdsDistinct (d1.records .cases)) ∧
    (∃ d1, (updateCase demoHost (.str "c2") [("id", .str "c1")] (.stored cascadeDoc)).2
        = .stored d1 ∧
      ¬ IdsDistinct (d1.records .cases)) :=
  ⟨fun c => by cases c <;> decide, by decide, ⟨_, rfl, by decide⟩, ⟨_, rfl, by decide⟩⟩

/-- C19 (amended).  If the ids within each collection of the stored document
are pairwise different, they still are in the document the backing holds after
any of the nine add operations whose record receives an id that no record of
the collection holds (the `id` of the bag when the bag has that key, the token
of `generateId` otherwise), after any of the eight update operations whose bag
names no id held by a record of the collection other than the one updated, and
after any of the eight delete operations. -/
theorem ids_distinct_preserved (h : Host) (d : Document) (hinv : d.idsDistinct) :
    (∀ p ∈ addOperations, ∀ fields : Record,
      (∀ r ∈ d.records p.1, Record.getProp r "id" ≠ some (receivedId h fields)) →
      ∃ d1, (p.2 h fields (.stored d)).2 = .stored d1 ∧ d1.idsDistinct) ∧
    (∀ p ∈ updateOperations, ∀ (id : JVal) (updates : Record),
      namesNoOtherId id updates (d.records p.1) = true →
      ∃ d1, (p.2 h id updates (.stored d)).2 = .stored d1 ∧ d1.idsDistinct) ∧
    (∀ op ∈ deleteOperations, ∀ id : JVal,
      ∃ d1, (op h id (.stored d)).2 = .stored d1 ∧ d1.idsDistinct) := by
  refine ⟨?_, ?_, ?_⟩
  · intro p hp fields hfresh
    simp only [addOperations, List.mem_cons, List.mem_singleton, List.not_mem_nil,
      or_false] at hp
    rcases hp with rfl | rfl | rfl | rfl | rfl | rfl | rfl | rfl | rfl
    · exact addRecord_preserves .cases h d fields hinv hfresh
    · exact addRecord_preserves .evidence h d fields hinv hfresh
    · exact addRecord_preserves .suspects h d fields hinv hfresh
    · exact addRecord_preserves .witnesses h d fields hinv hfresh
    · exact addTimelineEvent_preserves h d fields hinv hfresh
    · exact addRecord_preserves .documents h d fields hinv hfresh
    · exact addRecord_preserves .vehicles h d fields hinv hfresh
    · exact addRecord_preserves .incidents h d fields hinv hfresh
    · exact addRecord_preserves .officers h d fields hinv hfresh
  · intro p hp id updates hother
    simp only [updateOperations, List.mem_cons, List.mem_singleton, List.not_mem_nil,
      or_false] at hp
    rcases hp with rfl | rfl | rfl | rfl | rfl | rfl | rfl | rfl
    · exact updateRecord_preserves .cases h d id updates hinv hother
    · exact updateRecord_preserves .evidence h d id updates hinv hother
    · exact updateRecord_preserves .suspects h d id updates hinv hother
    · exact updateRecord_preserves .witnesses h d id updates hinv hother
    · exact updateTimelineEvent_preserves h d id updates hinv hother
    · exact updateRecord_preserves .documents h d id updates hinv hother
    · exact updateRecord_preserves .vehicles h d id updates hinv hother
    · exact updateRecord_preserves .incidents h d id updates hinv hother
  · intro op hop id
    simp only [deleteOperations, deleteRecordOperations, List.map_cons, List.map_nil,
      List.mem_cons, List.mem_singleton, List.not_mem_nil, or_false] at hop
    rcases hop with rfl | rfl | rfl | rfl | rfl | rfl | rfl | rfl
    · exact deleteCase_preserves h d id hinv
    · exact deleteRecord_preserves .evidence h d id hinv
    · exact deleteRecord_preserves .suspects h d id hinv
    · exact deleteRecord_preserves .witnesses h d id hinv
    · exact deleteRecord_preserves .timeline h d id hinv
    · exact deleteRecord_preserves .documents h d id hinv
    · exact deleteRecord_preserves .vehicles h d id hinv
    · exact deleteRecord_preserves .incidents h d id hinv

theorem ids_distinct_preserved_witness :
    (∃ d1, (addCase demoHost [("id", .str "c9"), ("title", .str "Dock arson")]
        (.stored cascadeDoc)).2 = .stored d1 ∧ d1.idsDistinct) ∧
    (∃ d1, (addCase demoHost [("title", .str "Dock arson")] (.stored cascadeDoc)).2
        = .stored d1 ∧ d1.idsDistinct) ∧
    (∃ d1, (updateCase demoHost (.str "c2") [("id", .str "c2"), ("title", .str "Renamed")]
        (.stored cascadeDoc)).2 = .stored d1 ∧ d1.idsDistinct) ∧
    (∃ d1, (updateCase demoHost (.str "c2") [("id", .str "c7")]
        (.stored cascadeDoc)).2 = .stored d1 ∧ d1.idsDistinct) ∧
    (∃ d1, (deleteCase demoHost (.str "c1") (.stored cascadeDoc)).2 = .stored d1 ∧
      d1.idsDistinct) :=
  ⟨(ids_distinct_preserved demoHost cascadeDoc (fun c => by cases c <;> decide)).1
      (.cases, addCase) (by simp [addOperations])
      [("id", .str "c9"), ("title", .str "Dock arson")] (by decide),
   (ids_distinct_preserved demoHost cascadeDoc (fun c => by cases c <;> decide)).1
      (.cases, addCase) (by simp [addOperations]) [("title", .str "Dock arson")]
      (by decide),
   (ids_distinct_preserved demoHost cascadeDoc (fun c => by cases c <;> decide)).2.1
      (.cases, updateCase) (by simp [updateOperations]) (.str "c2")
      [("id", .str "c2"), ("title", .str "Renamed")] (by decide),
   (ids_distinct_preserved demoHost cascadeDoc (fun c => by cases c <;> decide)).2.1
      (.cases, updateCase) (by simp [updateOperations]) (.str "c2")
      [("id", .str "c7")] (by decide),
   (ids_distinct_preserved demoHost cascadeDoc (fun c => by cases c <;> decide)).2.2
      deleteCase (List.Mem.head _) (.str "c1")⟩

/-! ## Lookup by id -/

/-- C21 (get by id).  For each of `getCase`, `getSuspect` and `getVehicle`,
every stored document and every id, the lookup returns without raising; what
it returns is `undefined` exactly when no record of the collection has an `id`
strictly equal to `id`, and otherwise a record with that id before which, in
stored order, no record has it. -/
theorem get_by_id (p : Coll × (Host → JVal → Backing → Outcome (Option Record)))
    (hp : p ∈ findOperations) (h : Host) (d : Document) (id : JVal) :
    ∃ res, p.2 h id (.stored d) = (.ok res, .stored d) ∧
      (res = none ↔ ∀ r ∈ d.records p.1, strictEq (Record.getProp r "id") id = false) ∧
      (∀ r : Record, res = some r →
        strictEq (Record.getProp r "id") id = true ∧
        ∃ pre post, d.records p.1 = pre ++ r :: post ∧
          ∀ x ∈ pre, strictEq (Record.getProp x "id") id = false) := by
  have generic : ∀ c : Coll,
      ∃ res, findRecord c h id (.stored d) = (.ok res, .stored d) ∧
        (res = none ↔ ∀ r ∈ d.records c, strictEq (Record.getProp r "id") id = false) ∧
        (∀ r : Record, res = some r →
          strictEq (Record.getProp r "id") id = true ∧
          ∃ pre post, d.records c = pre ++ r :: post ∧
            ∀ x ∈ pre, strictEq (Record.getProp x "id") id = false) := by
    intro c
    refine ⟨_, findRecord_stored c h id d, ?_, ?_⟩
    · simp [List.find?_eq_none]
    · intro r hr
      obtain ⟨hpr, pre, post, hsplit, hpre⟩ := List.find?_eq_some.1 hr
      exact ⟨hpr, pre, post, hsplit, fun x hx => by simpa using hpre x hx⟩
  simp only [findOperations, List.mem_cons, List.mem_singleton, List.not_mem_nil,
    or_false] at hp
  rcases hp with rfl | rfl | rfl <;> exact generic _

theorem get_by_id_witness :
    ∃ res, getCase demoHost (.str "c2") (.stored cascadeDoc) = (.ok res, .stored cascadeDoc) ∧
      (res = none ↔ ∀ r ∈ cascadeDoc.records .cases,
        strictEq (Record.getProp r "id") (.str "c2") = false) ∧
      (∀ r : Record, res = some r →
        strictEq (Record.getProp r "id") (.str "c2") = true ∧
        ∃ pre post, cascadeDoc.records .cases = pre ++ r :: post ∧
          ∀ x ∈ pre, strictEq (Record.getProp x "id") (.str "c2") = false) :=
  get_by_id (.cases, getCase) (by simp [findOperations]) demoHost cascadeDoc (.str "c2")

/-! ## Persistence -/

/-- C23, as stated, fails: the file parses, its one case has a `weight`
written as `1e400` and read as `Infinity`; `saveData(getData())` writes that
number as `null`, so the `cases` the backing then holds differ from the ones
it held. -/
theorem round_trip_loses_infinity :
    Parsed.getField heavyFile "cases"
      = some (.arr [.obj [("id", .str "c1"), ("weight", .infinity false)]]) ∧
    roundTrip demoHost heavyFile
      = (.ok true,
         [("cases", .arr [.obj [("id", .str "c1"), ("weight", .null)]]),
          ("evidence", .arr []),
          ("lastUpdated", .str demoHost.isoNow)]) ∧
    Parsed.getField (roundTrip demoHost heavyFile).2 "cases"
      ≠ Parsed.getField heavyFile "cases" := by
  refine ⟨rfl, rfl, ?_⟩
  simp [roundTrip, saveDataText, demoHost, heavyFile, Parsed.setField, Parsed.rereadFields,
    Parsed.reread, Parsed.rereadList, Parsed.getField, List.lookup]

/-- C23 (amended).  For every parsed document in which no number is infinite,
with the write succeeding, `saveData(getData())` returns `true` and the
document read back from the backing is the previous one with `lastUpdated`
set to the ISO rendering of the clock: every other top-level field reads as
before. -/
theorem round_trip_finite (h : Host) (file : List (String × Parsed))
    (hw : h.writeOk = true) (hfin : Parsed.finiteFields file = true) :
    roundTrip h file
      = (.ok true, Parsed.setField file "lastUpdated" (.str (h.toISOString h.clock))) ∧
    ∀ k, k ≠ "lastUpdated" →
      Parsed.getField (roundTrip h file).2 k = Parsed.getField file k := by
  have hset : Parsed.finiteFields (Parsed.setField file "lastUpdated" (.str h.isoNow)) = true :=
    Parsed.finiteFields_setField file _ _ hfin rfl
  have hrt : roundTrip h file
      = (.ok true, Parsed.setField file "lastUpdated" (.str (h.toISOString h.clock))) := by
    simp only [roundTrip, saveDataText, hw, if_true, Parsed.rereadFields_of_finite _ hset]
    rfl
  refine ⟨hrt, fun k hk => ?_⟩
  rw [hrt]
  exact Parsed.getField_setField_ne file _ k _ (fun e => hk e.symm)

theorem round_trip_finite_witness :
    roundTrip demoHost lightFile
      = (.ok true,
         Parsed.setField lightFile "lastUpdated"
           (.str (demoHost.toISOString demoHost.clock))) ∧
    ∀ k, k ≠ "lastUpdated" →
      Parsed.getField (roundTrip demoHost lightFile).2 k = Parsed.getField lightFile k :=
  round_trip_finite demoHost lightFile rfl rfl

/-! ## Timeline: timestamps -/

/-- C25 (timeline events gain `updatedAt` only on update).  For every stored
document with a timeline, with the write succeeding: for a bag without an
`updatedAt` key the record `addTimelineEvent` returns is stored in the
timeline, has no `updatedAt`, has the ISO rendering of the clock as
`createdAt`, its id, and the caller's value under every other key of the bag;
and when `updateTimelineEvent` finds the id, the record it modified is stored
in the timeline with the ISO rendering of the clock as `updatedAt`. -/
theorem timeline_updatedAt (h : Host) (d : Document) (ts : List Record)
    (ht : d.timeline = some ts) (hw : h.writeOk = true) :
    (∀ fields : Record, Record.getProp fields "updatedAt" = none →
      ∃ (r : Record) (d1 : Document) (ts1 : List Record),
        addTimelineEvent h fields (.stored d) = (.ok r, .stored d1) ∧
        d1.timeline = some ts1 ∧ r ∈ ts1 ∧
        r.getProp "updatedAt" = none ∧
        r.getProp "createdAt" = some (.str (h.toISOString h.clock)) ∧
        r.getProp "id" = some ((Record.getProp fields "id").getD (.str h.generateId)) ∧
        (∀ k v, k ≠ "createdAt" → Record.getProp fields k = some v →
          r.getProp k = some v)) ∧
    (∀ (id : JVal) (updates : Record) (n : Nat) (old : Record),
      findIndex (fun t => strictEq (t.getProp "id") id) ts = some n →
      ts.get? n = some old →
      ∃ (ret : Option Record) (d1 : Document) (ts1 : List Record),
        updateTimelineEvent h id updates (.stored d) = (.ok ret, .stored d1) ∧
        d1.timeline = some ts1 ∧
        mergedRecord h (some old) updates ∈ ts1 ∧
        Record.getProp (mergedRecord h (some old) updates) "updatedAt"
          = some (.str (h.toISOString h.clock))) := by
  constructor
  · intro fields hnone
    refine ⟨_, _, _, addTimelineEvent_stored h d fields ts ht hw, rfl, ?_, ?_,
      getProp_newEvent_createdAt h fields, getProp_newEvent_id h fields, ?_⟩
    · simp [sortTimeline, List.mem_insertionSort]
    · rw [getProp_newEvent h fields "updatedAt" (by decide), hnone]
      rfl
    · intro k v hk hv
      rw [getProp_newEvent h fields k hk, hv]
      rfl
  · intro id updates n old hn ho
    have hlt := findIndex_lt _ _ _ hn
    refine ⟨_, _, _, updateTimelineEvent_stored h d id updates ts n old ht hn ho hw, rfl, ?_,
      getProp_mergedRecord_updatedAt h _ updates⟩
    rw [sortTimeline, List.mem_insertionSort]
    exact List.mem_iff_get?.2 ⟨n, by simp [List.get?_eq_getElem?, List.getElem?_set, hlt]⟩

theorem timeline_updatedAt_witness :
    (∃ (r : Record) (d1 : Document) (ts1 : List Record),
      addTimelineEvent demoHost [("dateTime", .num 20)] (.stored unsortedDoc)
        = (.ok r, .stored d1) ∧
      d1.timeline = some ts1 ∧ r ∈ ts1 ∧
      r.getProp "updatedAt" = none ∧
      r.getProp "createdAt" = some (.str (demoHost.toISOString demoHost.clock)) ∧
      r.getProp "id"
        = some ((Record.getProp [("dateTime", .num 20)] "id").getD
            (.str demoHost.generateId)) ∧
      (∀ k v, k ≠ "createdAt" → Record.getProp [("dateTime", .num 20)] k = some v →
        r.getProp k = some v)) ∧
    (∃ (ret : Option Record) (d1 : Document) (ts1 : List Record),
      updateTimelineEvent demoHost (.str "t10") [("dateTime", .num 40)] (.stored unsortedDoc)
        = (.ok ret, .stored d1) ∧
      d1.timeline = some ts1 ∧
      mergedRecord demoHost (some [("id", .str "t10"), ("dateTime", .num 10)])
        [("dateTime", .num 40)] ∈ ts1 ∧
      Record.getProp (mergedRecord demoHost (some [("id", .str "t10"), ("dateTime", .num 10)])
        [("dateTime", .num 40)]) "updatedAt"
        = some (.str (demoHost.toISOString demoHost.clock))) :=
  ⟨(timeline_updatedAt demoHost unsortedDoc unsortedTimeline rfl rfl).1
      [("dateTime", .num 20)] rfl,
   (timeline_updatedAt demoHost unsortedDoc unsortedTimeline rfl rfl).2
      (.str "t10") [("dateTime", .num 40)] 1 _ (by decide) rfl⟩

/-! ## Search: fields that are not strings -/

/-- C26 (non-string and absent fields are skipped).  For every record, query
and field list, `matchesSearch` is a total test, and it answers `false` when
no listed field of the record holds a string, be the field absent, `null`, a
number, a boolean, an array or an object. -/
theorem matchesSearch_skips_non_strings (h : Host) (r : Record) (q : String)
    (fields : List String)
    (hns : ∀ f ∈ fields, isStringValue (Record.getProp r f) = false) :
    matchesSearch h r q fields = false := by
  unfold matchesSearch
  rw [List.any_eq_false]
  intro f hf
  have hf1 := hns f hf
  split
  · rename_i value hv
    simp [hv, isStringValue] at hf1
  · simp

theorem matchesSearch_skips_non_strings_witness :
    matchesSearch demoHost
      [("plate", .null), ("vin", .num 7), ("make", .bool true), ("model", .arr [.str "ford"]),
       ("color", .obj [("name", .str "ford")])]
      "ford" ["plate", "vin", "make", "model", "color", "owner"] = false :=
  matchesSearch_skips_non_strings demoHost _ "ford" _ (by decide)

/-! ## Add on a missing collection -/

/-- C27 (add into a missing collection).  For each of the nine add operations,
every stored document that lacks the key of its collection and every field
bag, the operation throws a `TypeError` before any save, and the backing is
left exactly as it was, whether or not a write would succeed. -/
theorem add_missing_collection_throws
    (p : Coll × (Host → Record → Backing → Outcome Record))
    (hp : p ∈ addOperations) (h : Host) (d : Document) (fields : Record)
    (hx : d.coll p.1 = none) :
    p.2 h fields (.stored d) = (.error .typeError, .stored d) := by
  simp only [addOperations, List.mem_cons, List.mem_singleton, List.not_mem_nil,
    or_false] at hp
  rcases hp with rfl | rfl | rfl | rfl | rfl | rfl | rfl | rfl | rfl
  · exact addRecord_absent .cases h d fields hx
  · exact addRecord_absent .evidence h d fields hx
  · exact addRecord_absent .suspects h d fields hx
  · exact addRecord_absent .witnesses h d fields hx
  · exact addTimelineEvent_absent h d fields hx
  · exact addRecord_absent .documents h d fields hx
  · exact addRecord_absent .vehicles h d fields hx
  · exact addRecord_absent .incidents h d fields hx
  · exact addRecord_absent .officers h d fields hx

theorem add_missing_collection_throws_witness :
    addVehicle demoHost [("plate", .str "ABC123")] (.stored recoveredDoc)
        = (.error .typeError, .stored recoveredDoc) ∧
    addOfficer demoHost [("name", .str "Reyes")] (.stored recoveredDoc)
        = (.error .typeError, .stored recoveredDoc) :=
  ⟨add_missing_collection_throws (.vehicles, addVehicle) (by simp [addOperations]) demoHost
      recoveredDoc [("plate", .str "ABC123")] rfl,
   add_missing_collection_throws (.officers, addOfficer) (by simp [addOperations]) demoHost
      recoveredDoc [("name", .str "Reyes")] rfl⟩

/-! ## Saving: `lastUpdated` and failed writes -/

/-- C22 (`lastUpdated` tracks the last save).  With the write succeeding,
`saveData` stores a document whose `lastUpdated` is the ISO rendering of the
clock, whatever the document carried before; hence on every backing, whenever
one of the nine add operations returns a record, one of the eight delete
operations returns, or one of the eight update operations returns a record,
the backing holds a document whose `lastUpdated` is the ISO rendering of the
clock. -/
theorem lastUpdated_tracks_save (h : Host) :
    (∀ (data : Document) (b : Backing), h.writeOk = true →
      ∃ d1, saveData h data b = (.ok true, .stored d1) ∧
        d1.lastUpdated = some (.str (h.toISOString h.clock))) ∧
    (∀ p ∈ addOperations, ∀ (fields : Record) (b b1 : Backing) (r : Record),
      p.2 h fields b = (.ok r, b1) →
      ∃ d1, b1 = .stored d1 ∧ d1.lastUpdated = some (.str (h.toISOString h.clock))) ∧
    (∀ op ∈ deleteOperations, ∀ (id : JVal) (b b1 : Backing) (v : Bool),
      op h id b = (.ok v, b1) →
      ∃ d1, b1 = .stored d1 ∧ d1.lastUpdated = some (.str (h.toISOString h.clock))) ∧
    (∀ p ∈ updateOperations, ∀ (id : JVal) (updates : Record) (b b1 : Backing) (r : Record),
      p.2 h id updates b = (.ok (some r), b1) →
      ∃ d1, b1 = .stored d1 ∧ d1.lastUpdated = some (.str (h.toISOString h.clock))) := by
  refine ⟨?_, ?_, ?_, ?_⟩
  · intro data b hw
    exact ⟨{ data with lastUpdated := some (.str h.isoNow) }, by simp [saveData, hw], rfl⟩
  · intro p hp fields b b1 r hc
    simp only [addOperations, List.mem_cons, List.mem_singleton, List.not_mem_nil,
      or_false] at hp
    rcases hp with rfl | rfl | rfl | rfl | rfl | rfl | rfl | rfl | rfl
    · exact addRecord_ok_stamped .cases h fields b b1 r hc
    · exact addRecord_ok_stamped .evidence h fields b b1 r hc
    · exact addRecord_ok_stamped .suspects h fields b b1 r hc
    · exact addRecord_ok_stamped .witnesses h fields b b1 r hc
    · exact addTimelineEvent_ok_stamped h fields b b1 r hc
    · exact addRecord_ok_stamped .documents h fields b b1 r hc
    · exact addRecord_ok_stamped .vehicles h fields b b1 r hc
    · exact addRecord_ok_stamped .incidents h fields b b1 r hc
    · exact addRecord_ok_stamped .officers h fields b b1 r hc
  · intro op hop id b b1 v hc
    simp only [deleteOperations, deleteRecordOperations, List.map_cons, List.map_nil,
      List.mem_cons, List.mem_singleton, List.not_mem_nil, or_false] at hop
    rcases hop with rfl | rfl | rfl | rfl | rfl | rfl | rfl | rfl
    · exact deleteCase_ok_stamped h id b b1 v hc
    · exact deleteRecord_ok_stamped .evidence h id b b1 v hc
    · exact deleteRecord_ok_stamped .suspects h id b b1 v hc
    · exact deleteRecord_ok_stamped .witnesses h id b b1 v hc
    · exact deleteRecord_ok_stamped .timeline h id b b1 v hc
    · exact deleteRecord_ok_stamped .documents h id b b1 v hc
    · exact deleteRecord_ok_stamped .vehicles h id b b1 v hc
    · exact deleteRecord_ok_stamped .incidents h id b b1 v hc
  · intro p hp id updates b b1 r hc
    simp only [updateOperations, List.mem_cons, List.mem_singleton, List.not_mem_nil,
      or_false] at hp
    rcases hp with rfl | rfl | rfl | rfl | rfl | rfl | rfl | rfl
    · exact updateRecord_ok_stamped .cases h id updates b b1 r hc
    · exact updateRecord_ok_stamped .evidence h id updates b b1 r hc
    · exact updateRecord_ok_stamped .suspects h id updates b b1 r hc
    · exact updateRecord_ok_stamped .witnesses h id updates b b1 r hc
    · exact updateTimelineEvent_ok_stamped h id updates b b1 r hc
    · exact updateRecord_ok_stamped .documents h id updates b b1 r hc
    · exact updateRecord_ok_stamped .vehicles h id updates b b1 r hc
    · exact updateRecord_ok_stamped .incidents h id updates b b1 r hc

theorem lastUpdated_tracks_save_witness :
    (∃ d1, saveData demoHost cascadeDoc .missing = (.ok true, .stored d1) ∧
      d1.lastUpdated = some (.str (demoHost.toISOString demoHost.clock))) ∧
    (∃ d1, (addCase demoHost [("title", .str "Dock arson")] (.stored cascadeDoc)).2
        = .stored d1 ∧
      d1.lastUpdated = some (.str (demoHost.toISOString demoHost.clock))) ∧
    (∃ d1, (deleteCase demoHost (.str "c1") .corrupt).2 = .stored d1 ∧
      d1.lastUpdated = some (.str (demoHost.toISOString demoHost.clock))) ∧
    (∃ d1, (updateCase demoHost (.str "c2") [("title", .str "Renamed")]
        (.stored cascadeDoc)).2 = .stored d1 ∧
      d1.lastUpdated = some (.str (demoHost.toISOString demoHost.clock))) :=
  ⟨(lastUpdated_tracks_save demoHost).1 cascadeDoc .missing rfl,
   (lastUpdated_tracks_save demoHost).2.1 (.cases, addCase) (by simp [addOperations])
      [("title", .str "Dock arson")] (.stored cascadeDoc) _ _ rfl,
   (lastUpdated_tracks_save demoHost).2.2.1 deleteCase (List.Mem.head _)
      (.str "c1") .corrupt _ true rfl,
   (lastUpdated_tracks_save demoHost).2.2.2 (.cases, updateCase) (by simp [updateOperations])
      (.str "c2") [("title", .str "Renamed")] (.stored cascadeDoc) _ _ rfl⟩

/-- C24 (write failure is propagated).  When the write fails, `saveData`
throws the write error, leaving the backing as it was; hence on every backing
each of the nine add operations and each of the eight delete operations
throws instead of returning, the backing unchanged; and on a stored document
that has the collection, each add operation, each delete operation other than
`deleteCase`, and each update operation that finds the id throws the write
error. -/
theorem write_failure_propagates (h : Host) (hw : h.writeOk = false) :
    (∀ (data : Document) (b : Backing), saveData h data b = (.error .writeFailed, b)) ∧
    (∀ p ∈ addOperations, ∀ (fields : Record) (b : Backing),
      ∃ e, p.2 h fields b = (.error e, b)) ∧
    (∀ op ∈ deleteOperations, ∀ (id : JVal) (b : Backing),
      ∃ e, op h id b = (.error e, b)) ∧
    (∀ p ∈ addOperations, ∀ (fields : Record) (d : Document) (xs : List Record),
      d.coll p.1 = some xs →
      p.2 h fields (.stored d) = (.error .writeFailed, .stored d)) ∧
    (∀ p ∈ deleteRecordOperations, ∀ (id : JVal) (d : Document) (xs : List Record),
      d.coll p.1 = some xs →
      p.2 h id (.stored d) = (.error .writeFailed, .stored d)) ∧
    (∀ p ∈ updateOperations, ∀ (id : JVal) (updates : Record) (d : Document)
      (xs : List Record) (n : Nat),
      d.coll p.1 = some xs →
      findIndex (fun r => strictEq (Record.getProp r "id") id) xs = some n →
      p.2 h id updates (.stored d) = (.error .writeFailed, .stored d)) := by
  refine ⟨?_, ?_, ?_, ?_, ?_, ?_⟩
  · intro data b
    simp [saveData, hw]
  · intro p hp fields b
    simp only [addOperations, List.mem_cons, List.mem_singleton, List.not_mem_nil,
      or_false] at hp
    rcases hp with rfl | rfl | rfl | rfl | rfl | rfl | rfl | rfl | rfl
    · exact addRecord_write_fails .cases h hw fields b
    · exact addRecord_write_fails .evidence h hw fields b
    · exact addRecord_write_fails .suspects h hw fields b
    · exact addRecord_write_fails .witnesses h hw fields b
    · exact addTimelineEvent_write_fails h hw fields b
    · exact addRecord_write_fails .documents h hw fields b
    · exact addRecord_write_fails .vehicles h hw fields b
    · exact addRecord_write_fails .incidents h hw fields b
    · exact addRecord_write_fails .officers h hw fields b
  · intro op hop id b
    simp only [deleteOperations, deleteRecordOperations, List.map_cons, List.map_nil,
      List.mem_cons, List.mem_singleton, List.not_mem_nil, or_false] at hop
    rcases hop with rfl | rfl | rfl | rfl | rfl | rfl | rfl | rfl
    · exact deleteCase_write_fails h hw id b
    · exact deleteRecord_write_fails .evidence h hw id b
    · exact deleteRecord_write_fails .suspects h hw id b
    · exact deleteRecord_write_fails .witnesses h hw id b
    · exact deleteRecord_write_fails .timeline h hw id b
    · exact deleteRecord_write_fails .documents h hw id b
    · exact deleteRecord_write_fails .vehicles h hw id b
    · exact deleteRecord_write_fails .incidents h hw id b
  · intro p hp fields d xs hx
    simp only [addOperations, List.mem_cons, List.mem_singleton, List.not_mem_nil,
      or_false] at hp
    rcases hp with rfl | rfl | rfl | rfl | rfl | rfl | rfl | rfl | rfl
    · exact addRecord_writeFailed .cases h hw fields d xs hx
    · exact addRecord_writeFailed .evidence h hw fields d xs hx
    · exact addRecord_writeFailed .suspects h hw fields d xs hx
    · exact addRecord_writeFailed .witnesses h hw fields d xs hx
    · exact addTimelineEvent_writeFailed h hw fields d xs hx
    · exact addRecord_writeFailed .documents h hw fields d xs hx
    · exact addRecord_writeFailed .vehicles h hw fields d xs hx
    · exact addRecord_writeFailed .incidents h hw fields d xs hx
    · exact addRecord_writeFailed .officers h hw fields d xs hx
  · intro p hp id d xs hx
    have generic : ∀ c : Coll, d.coll c = some xs →
        deleteRecord c h id (.stored d) = (.error .writeFailed, .stored d) := by
      intro c hc
      unfold deleteRecord
      exact cycle_stored_writeFailed h hw d _ _ _
        (by simp [filterColl, hc, bind, Except.bind, pure, Except.pure]; exact ⟨rfl, rfl⟩)
    simp only [deleteRecordOperations, List.mem_cons, List.mem_singleton, List.not_mem_nil,
      or_false] at hp
    rcases hp with rfl | rfl | rfl | rfl | rfl | rfl | rfl <;> exact generic _ hx
  · intro p hp id updates d xs n hx hn
    simp only [updateOperations, List.mem_cons, List.mem_singleton, List.not_mem_nil,
      or_false] at hp
    rcases hp with rfl | rfl | rfl | rfl | rfl | rfl | rfl | rfl
    · exact updateRecord_write_fails .cases h hw id updates d xs n hx hn
    · exact updateRecord_write_fails .evidence h hw id updates d xs n hx hn
    · exact updateRecord_write_fails .suspects h hw id updates d xs n hx hn
    · exact updateRecord_write_fails .witnesses h hw id updates d xs n hx hn
    · exact updateTimelineEvent_write_fails h hw id updates d xs n hx hn
    · exact updateRecord_write_fails .documents h hw id updates d xs n hx hn
    · exact updateRecord_write_fails .vehicles h hw id updates d xs n hx hn
    · exact updateRecord_write_fails .incidents h hw id updates d xs n hx hn

theorem write_failure_propagates_witness :
    saveData { demoHost with writeOk := false } cascadeDoc (.stored blankDoc)
        = (.error .writeFailed, .stored blankDoc) ∧
    addCase { demoHost with writeOk := false } [("title", .str "Dock arson")]
        (.stored cascadeDoc) = (.error .writeFailed, .stored cascadeDoc) ∧
    deleteEvidence { demoHost with writeOk := false } (.str "e1") (.stored cascadeDoc)
        = (.error .writeFailed, .stored cascadeDoc) ∧
    updateCase { demoHost with writeOk := false } (.str "c2") [("title", .str "Renamed")]
        (.stored cascadeDoc) = (.error .writeFailed, .stored cascadeDoc) :=
  ⟨(write_failure_propagates { demoHost with writeOk := false } rfl).1 cascadeDoc
      (.stored blankDoc),
   (write_failure_propagates { demoHost with writeOk := false } rfl).2.2.2.1
      (.cases, addCase) (by simp [addOperations]) [("title", .str "Dock arson")]
      cascadeDoc twoCases rfl,
   (write_failure_propagates { demoHost with writeOk := false } rfl).2.2.2.2.1
      (.evidence, deleteEvidence) (by simp [deleteRecordOperations]) (.str "e1")
      cascadeDoc _ rfl,
   (write_failure_propagates { demoHost with writeOk := false } rfl).2.2.2.2.2
      (.cases, updateCase) (by simp [updateOperations]) (.str "c2")
      [("title", .str "Renamed")] cascadeDoc twoCases 1 rfl (by decide)⟩

/-! ## Deletion and the order of the timeline -/

/-- C28 (deletion preserves timeline order).  If the timeline of the stored
document is in non-decreasing order of parsed `dateTime`, then for every id
the document the backing holds after `deleteTimelineEvent` and after
`deleteCase` has a timeline that is a sublist of the previous one (events are
only dropped, never moved) and is still in that order. -/
theorem delete_keeps_timeline_sorted (h : Host) (d : Document) (id : JVal)
    (hs : DateSorted h (d.records .timeline)) :
    (∃ d1, (deleteTimelineEvent h id (.stored d)).2 = .stored d1 ∧
      (d1.records .timeline).Sublist (d.records .timeline) ∧
      DateSorted h (d1.records .timeline)) ∧
    (∃ d1, (deleteCase h id (.stored d)).2 = .stored d1 ∧
      (d1.records .timeline).Sublist (d.records .timeline) ∧
      DateSorted h (d1.records .timeline)) := by
  have hstamp : ∀ (d0 : Document) (v : Option JVal),
      (d0.records .timeline).Sublist (d.records .timeline) →
      (({ d0 with lastUpdated := v } : Document).records .timeline).Sublist
        (d.records .timeline) := fun d0 v hd0 => hd0
  constructor
  · obtain ⟨d1, hb, hsub⟩ := cycle_stored_invariant
      (fun d0 => (d0.records .timeline).Sublist (d.records .timeline)) h d
      (fun data => do
        let data ← filterColl .timeline (fun r => !strictEq (Record.getProp r "id") id) data
        pure (true, some data))
      hstamp (List.Sublist.refl _) (by
        intro a d1 hmut
        cases hf : filterColl .timeline
            (fun r => !strictEq (Record.getProp r "id") id) d with
        | error e => simp [hf, bind, Except.bind] at hmut
        | ok d0 =>
          simp [hf, bind, Except.bind, pure, Except.pure] at hmut
          rw [← hmut.2]
          exact filterColl_timeline_sublist _ _ d d0 _ (List.Sublist.refl _) hf)
    exact ⟨d1, hb, hsub, dateSorted_of_sublist h _ _ hsub hs⟩
  · obtain ⟨d1, hb, hsub⟩ := cycle_stored_invariant
      (fun d0 => (d0.records .timeline).Sublist (d.records .timeline)) h d
      (fun data => do
        let data ← filterColl .cases (fun c => !strictEq (Record.getProp c "id") id) data
        let data ← filterColl .evidence
          (fun e => !strictEq (Record.getProp e "caseId") id) data
        let data ← filterColl .timeline
          (fun t => !strictEq (Record.getProp t "caseId") id) data
        let data ← filterColl .documents
          (fun x => !strictEq (Record.getProp x "caseId") id) data
        pure (true, some data))
      hstamp (List.Sublist.refl _) (by
        intro a d4 hmut
        cases h1 : filterColl .cases (fun c => !strictEq (Record.getProp c "id") id) d with
        | error e => simp [h1, bind, Except.bind] at hmut
        | ok d1 =>
          cases h2 : filterColl .evidence
              (fun e => !strictEq (Record.getProp e "caseId") id) d1 with
          | error e => simp [h1, h2, bind, Except.bind] at hmut
          | ok d2 =>
            cases h3 : filterColl .timeline
                (fun t => !strictEq (Record.getProp t "caseId") id) d2 with
            | error e => simp [h1, h2, h3, bind, Except.bind] at hmut
            | ok d3 =>
              cases h4 : filterColl .documents
                  (fun x => !strictEq (Record.getProp x "caseId") id) d3 with
              | error e => simp [h1, h2, h3, h4, bind, Except.bind] at hmut
              | ok d5 =>
                simp [h1, h2, h3, h4, bind, Except.bind, pure, Except.pure] at hmut
                rw [← hmut.2]
                exact filterColl_timeline_sublist _ _ d3 d5 _
                  (filterColl_timeline_sublist _ _ d2 d3 _
                    (filterColl_timeline_sublist _ _ d1 d2 _
                      (filterColl_timeline_sublist _ _ d d1 _ (List.Sublist.refl _) h1)
                      h2) h3) h4)
    exact ⟨d1, hb, hsub, dateSorted_of_sublist h _ _ hsub hs⟩

theorem delete_keeps_timeline_sorted_witness :
    (∃ d1, (deleteTimelineEvent demoHost (.str "t1") (.stored cascadeDoc)).2 = .stored d1 ∧
      (d1.records .timeline).Sublist (cascadeDoc.records .timeline) ∧
      DateSorted demoHost (d1.records .timeline)) ∧
    (∃ d1, (deleteCase demoHost (.str "c2") (.stored cascadeDoc)).2 = .stored d1 ∧
      (d1.records .timeline).Sublist (cascadeDoc.records .timeline) ∧
      DateSorted demoHost (d1.records .timeline)) :=
  ⟨(delete_keeps_timeline_sorted demoHost cascadeDoc (.str "t1") (by decide)).1,
   (delete_keeps_timeline_sorted demoHost cascadeDoc (.str "c2") (by decide)).2⟩

/-! ## An unparseable date -/

/-- C29 (an unparseable `dateTime` breaks the ordering).  Whenever the date of
either record is invalid the comparator yields `NaN`, which the sort takes for
0 in both directions.  And on the timeline holding the event `t3` of date 3
followed by the event `tx` whose `dateTime` does not parse, `addTimelineEvent`
with the date 1 stores the new event last: the two valid events are stored as
3 before 1. -/
theorem invalid_date_breaks_order :
    (∀ (h : Host) (a b : Record), dateOf h a = none ∨ dateOf h b = none →
      compareDateTime h a b = none ∧ sortCompare h a b = 0 ∧ sortCompare h b a = 0) ∧
    dateOf demoHost [("id", .str "tx"), ("dateTime", .str "not a date")] = none ∧
    dateOf demoHost [("id", .str "t3"), ("dateTime", .num 3)] = some 3 ∧
    dateOf demoHost (newEvent demoHost [("dateTime", .num 1)]) = some 1 ∧
    addTimelineEvent demoHost [("dateTime", .num 1)] (.stored brokenDoc)
      = (.ok (newEvent demoHost [("dateTime", .num 1)]),
         .stored { brokenDoc with
           timeline := some
             [[("id", .str "t3"), ("dateTime", .num 3)],
              [("id", .str "tx"), ("dateTime", .str "not a date")],
              newEvent demoHost [("dateTime", .num 1)]]
           lastUpdated := some (.str demoHost.isoNow) }) := by
  refine ⟨?_, rfl, rfl, rfl, rfl⟩
  intro h a b hab
  unfold sortCompare compareDateTime
  rcases hab with ha | hb
  · simp [ha]
  · cases hx : dateOf h a <;> simp [hb]

/-! ## The delete-photo endpoint -/

/-- C30 (photo removal matches by substring).  For every stored document whose
evidence holds a record with the requested id (the first at position `n`)
whose `photos` is a list of strings, and every requested filename, with the
file removal and the write succeeding, the endpoint answers success and stores
at position `n` a record whose `photos` are the previous ones that do not
contain the filename as a substring, in their previous order, and whose other
fields, `updatedAt` apart, are as before; every other collection is
unchanged. -/
theorem deletePhoto_removes_by_substring (h : Host) (d : Document) (id filename : String)
    (es : List Record) (n : Nat) (old : Record) (photos : List String)
    (he : d.evidence = some es)
    (hn : findIndex (fun e => strictEq (e.getProp "id") (.str id)) es = some n)
    (ho : es.get? n = some old)
    (hp : old.getProp "photos" = some (.arr (photos.map JVal.str)))
    (hw : h.writeOk = true) :
    ∃ (r : Record) (d1 : Document),
      deletePhoto h id filename (.ok ()) (.stored d) = (.success, .stored d1) ∧
      d1.evidence = some (es.set n r) ∧
      r.getProp "photos"
        = some (.arr ((photos.filter fun p => !includes p filename).map JVal.str)) ∧
      (∀ k, k ≠ "photos" → k ≠ "updatedAt" → r.getProp k = old.getProp k) ∧
      (∀ c, c ≠ Coll.evidence → d1.coll c = d.coll c) := by
  have hfind := find?_of_findIndex _ es n old hn ho
  have hupd := updateRecord_stored .evidence h d (.str id)
    [("photos", .arr ((photos.filter fun p => !includes p filename).map JVal.str))]
    es n old he hn ho hw
  refine ⟨mergedRecord h (some old)
      [("photos", .arr ((photos.filter fun p => !includes p filename).map JVal.str))],
    { d.setColl .evidence (es.set n (mergedRecord h (some old)
        [("photos", .arr ((photos.filter fun p => !includes p filename).map JVal.str))])) with
      lastUpdated := some (.str h.isoNow) }, ?_, rfl, ?_, ?_, ?_⟩
  · simp only [deletePhoto, getEvidence, getColl_stored,
      records_of_coll d .evidence es he, hfind, hp, filterPhotos, filterPhotoList_strings,
      updateEvidence, hupd]
  · rw [getProp_mergedRecord h old _ "photos" (by decide)]
    rfl
  · intro k hk1 hk2
    rw [getProp_mergedRecord h old _ k hk2]
    have hnone : Record.getProp
        [("photos", JVal.arr ((photos.filter fun p => !includes p filename).map JVal.str))] k
        = none := by
      have hb : (k == "photos") = false := by simpa using hk1
      simp [Record.getProp, List.lookup, hb]
    rw [hnone]
    rfl
  · intro c hc
    rw [coll_stamp, coll_setColl_ne _ _ _ _ (Ne.symm hc)]

theorem deletePhoto_removes_by_substring_witness :
    ∃ (r : Record) (d1 : Document),
      deletePhoto demoHost "e1" "1.jpg" (.ok ()) (.stored photoDoc) = (.success, .stored d1) ∧
      d1.evidence = some ([photoEvidence].set 0 r) ∧
      r.getProp "photos" = some (.arr [.str "/uploads/2.png"]) ∧
      (∀ k, k ≠ "photos" → k ≠ "updatedAt" → r.getProp k = Record.getProp photoEvidence k) ∧
      (∀ c, c ≠ Coll.evidence → d1.coll c = photoDoc.coll c) :=
  deletePhoto_removes_by_substring demoHost photoDoc "e1" "1.jpg" [photoEvidence] 0
    photoEvidence ["/uploads/1.jpg", "/uploads/11.jpg", "/uploads/2.png"]
    rfl (by decide) rfl rfl rfl

end CaseStore
